import Mathlib

/-!
Verification development for the llama2.c inference engine (`run.c`).

The C program is shallowly embedded: float arithmetic is modelled by exact
rationals, with the transcendental helpers `expf` and `sqrtf` kept abstract
as explicit function parameters `exq` and `sq` (the properties proved here
do not depend on them).  Mutable C buffers are modelled as total functions
from flat indices to rationals; a C loop that writes the index range
`[0, size)` of a buffer becomes a function update guarded by that range, so
that the embedded definitions perform exactly the writes the source does.
The weight blob is a single flat buffer, as in the memory-mapped file, and
every tensor is an offset into it, mirroring `checkpoint_init_weights`.
-/

set_option autoImplicit false

namespace Llama2

/-- Model hyperparameters from the checkpoint header (`Config` in run.c).
The C fields are 32-bit ints used as sizes; they are modelled as `Nat`. -/
structure Config where
  dim : Nat
  hiddenDim : Nat
  nLayers : Nat
  nHeads : Nat
  nKvHeads : Nat
  vocabSize : Nat
  seqLen : Nat

/-- Offsets of the weight tensors inside the flat float buffer, one field per
pointer of `TransformerWeights` in run.c. -/
structure Weights where
  token_embedding_table : Nat
  rms_att_weight : Nat
  wq : Nat
  wk : Nat
  wv : Nat
  wo : Nat
  rms_ffn_weight : Nat
  w1 : Nat
  w2 : Nat
  w3 : Nat
  rms_final_weight : Nat
  freq_cis_real : Nat
  freq_cis_imag : Nat
  wcls : Nat

/-- Embedding of `checkpoint_init_weights` (run.c lines 133-163): the running
pointer becomes a running offset, advanced by exactly the sizes the C code
adds; `wcls` points at the embedding table when weights are shared, else at
the position right after `freq_cis_imag`. -/
def checkpoint_init_weights (p : Config) (shared_weights : Bool) : Weights :=
  let o0 := 0
  let o1 := o0 + p.vocabSize * p.dim
  let o2 := o1 + p.nLayers * p.dim
  let o3 := o2 + p.nLayers * p.dim * p.dim
  let o4 := o3 + p.nLayers * p.dim * p.dim
  let o5 := o4 + p.nLayers * p.dim * p.dim
  let o6 := o5 + p.nLayers * p.dim * p.dim
  let o7 := o6 + p.nLayers * p.dim
  let o8 := o7 + p.nLayers * p.dim * p.hiddenDim
  let o9 := o8 + p.nLayers * p.hiddenDim * p.dim
  let o10 := o9 + p.nLayers * p.dim * p.hiddenDim
  let o11 := o10 + p.dim
  let head_size := p.dim / p.nHeads
  let o12 := o11 + p.seqLen * head_size / 2
  let o13 := o12 + p.seqLen * head_size / 2
  { token_embedding_table := o0
    rms_att_weight := o1
    wq := o2
    wk := o3
    wv := o4
    wo := o5
    rms_ffn_weight := o6
    w1 := o7
    w2 := o8
    w3 := o9
    rms_final_weight := o10
    freq_cis_real := o11
    freq_cis_imag := o12
    wcls := if shared_weights then o0 else o13 }

/-- A pointer `base + off` into the flat buffer becomes a shifted view. -/
def view (wb : Nat → ℚ) (off : Nat) : Nat → ℚ := fun i => wb (off + i)

/-- Row `i` of the matrix-vector product in `matmul` (run.c lines 209-219):
`xout[i] = sum_j w[i*n+j] * x[j]`. -/
def dotRow (w x : Nat → ℚ) (n i : Nat) : ℚ :=
  ∑ j in Finset.range n, w (i * n + j) * x j

/-- Embedding of `matmul` (run.c lines 209-219): writes rows `0 ≤ i < d` of
`xout`, leaving other indices of the output buffer unchanged. -/
def matmul (xout x w : Nat → ℚ) (n d : Nat) : Nat → ℚ :=
  fun i => if i < d then dotRow w x n i else xout i

/-- Embedding of `accum` (run.c lines 168-172). -/
def accum (a b : Nat → ℚ) (size : Nat) : Nat → ℚ :=
  fun i => if i < size then a i + b i else a i

/-- Embedding of `rmsnorm` (run.c lines 174-187); `sq` models `sqrtf`.
The C call sites may alias `o` with `x`; since each `o[j]` is read at `j`
before being written at `j`, the aliased call equals this simultaneous
update, with `o` only supplying the out-of-range fallback. -/
def rmsnorm (sq : ℚ → ℚ) (o x weight : Nat → ℚ) (size : Nat) : Nat → ℚ :=
  fun j =>
    if j < size then
      weight j *
        (1 / sq ((∑ i in Finset.range size, x i * x i) / (size : ℚ) + 1 / 100000) * x j)
    else o j

/-- The running maximum of `x[off .. off+size)` computed by the first loop of
`softmax` (run.c lines 191-196): start from `x[off]`, scan indices 1 to
`size-1`. -/
def maxOver (x : Nat → ℚ) (off size : Nat) : ℚ :=
  (List.range' 1 (size - 1)).foldl
    (fun m i => if x (off + i) > m then x (off + i) else m) (x off)

/-- Embedding of `softmax` (run.c lines 189-207) applied to the subarray
`x[off .. off+size)` (the C function receives the pointer `x + off`);
`exq` models `expf`. -/
def softmax (exq : ℚ → ℚ) (x : Nat → ℚ) (off size : Nat) : Nat → ℚ :=
  fun idx =>
    if off ≤ idx ∧ idx < off + size then
      exq (x idx - maxOver x off size) /
        ∑ i in Finset.range size, exq (x (off + i) - maxOver x off size)
    else x idx

/-- Embedding of the RoPE rotation loops (run.c lines 249-266) acting on the
`q` (or `k`) buffer: for each head and each even pair inside the head, rotate
by the row values `fr`, `fi`.  Each C iteration reads the pair before writing
it and distinct iterations touch disjoint pairs, so the loop nest equals this
simultaneous update. -/
def rope (qf fr fi : Nat → ℚ) (nHeads headSize : Nat) : Nat → ℚ :=
  fun idx =>
    if idx < nHeads * headSize then
      let i := idx % headSize
      if i % 2 = 0 then qf idx * fr (i / 2) - qf (idx + 1) * fi (i / 2)
      else qf (idx - 1) * fi (i / 2) + qf idx * fr (i / 2)
    else qf idx

/-- Activation buffers (`RunState` in run.c lines 58-73), each a flat
rational-valued buffer. -/
structure RunState where
  x : Nat → ℚ
  xb : Nat → ℚ
  xb2 : Nat → ℚ
  hb : Nat → ℚ
  hb2 : Nat → ℚ
  q : Nat → ℚ
  k : Nat → ℚ
  v : Nat → ℚ
  att : Nat → ℚ
  logits : Nat → ℚ
  key_cache : Nat → ℚ
  value_cache : Nat → ℚ

/-- The `memcpy` of `dim` floats into a cache row (run.c lines 272-273):
indices `[start, start+dim)` receive `src[0..dim)`, the rest is unchanged. -/
def writeSlot (cache src : Nat → ℚ) (start dim : Nat) : Nat → ℚ :=
  fun idx => if start ≤ idx ∧ idx < start + dim then src (idx - start) else cache idx

/-- The key-cache flat index of entry `i` of slot `(layer l, position t)`. -/
def slotIdx (p : Config) (l t i : Nat) : Nat :=
  l * p.seqLen * p.dim + t * p.dim + i

/-- Entry `i` of key-cache slot `(l, t)`. -/
def keyAt (p : Config) (s : RunState) (l t i : Nat) : ℚ :=
  s.key_cache (slotIdx p l t i)

/-- Entry `i` of value-cache slot `(l, t)`. -/
def valAt (p : Config) (s : RunState) (l t i : Nat) : ℚ :=
  s.value_cache (slotIdx p l t i)

/-- The three qkv matrix-vector products of one layer (run.c lines 244-246):
`q` from `wq`, `k` from `wk`, `v` from `wv`, all applied to the normalized
residual `xbf`. -/
def qkvMatmuls (p : Config) (wb : Nat → ℚ) (w : Weights) (l : Nat)
    (xbf qold kold vold : Nat → ℚ) : (Nat → ℚ) × (Nat → ℚ) × (Nat → ℚ) :=
  (matmul qold xbf (view wb (w.wq + l * p.dim * p.dim)) p.dim p.dim,
   matmul kold xbf (view wb (w.wk + l * p.dim * p.dim)) p.dim p.dim,
   matmul vold xbf (view wb (w.wv + l * p.dim * p.dim)) p.dim p.dim)

/-- The attention-score pass of one head (run.c lines 283-294): write the
scores `att[h*seq_len + t]` for `t ≤ pos`, leaving other entries unchanged. -/
def attScores (sq : ℚ → ℚ) (p : Config) (pos loff h : Nat) (s : RunState) :
    Nat → ℚ :=
  fun idx =>
    if h * p.seqLen ≤ idx ∧ idx < h * p.seqLen + (pos + 1) then
      (∑ i in Finset.range (p.dim / p.nHeads),
        s.q (h * (p.dim / p.nHeads) + i) *
          s.key_cache (loff + (idx - h * p.seqLen) * p.dim + h * (p.dim / p.nHeads) + i)) /
        sq ((p.dim / p.nHeads : Nat) : ℚ)
    else s.att idx

/-- The att buffer of one head after scores and in-place softmax (run.c
lines 283-297). -/
def attOut (exq sq : ℚ → ℚ) (p : Config) (pos loff h : Nat) (s : RunState) :
    Nat → ℚ :=
  softmax exq (attScores sq p pos loff h s) (h * p.seqLen) (pos + 1)

/-- One head of the attention block (run.c lines 277-307): scores, softmax,
then the weighted value sum written into the slice
`xb[h*head_size .. (h+1)*head_size)`. -/
def headStep (exq sq : ℚ → ℚ) (p : Config) (pos loff : Nat) (s : RunState)
    (h : Nat) : RunState :=
  { s with
    att := attOut exq sq p pos loff h s,
    xb := fun idx =>
      if h * (p.dim / p.nHeads) ≤ idx ∧
          idx < h * (p.dim / p.nHeads) + (p.dim / p.nHeads) then
        ∑ t in Finset.range (pos + 1),
          attOut exq sq p pos loff h s (h * p.seqLen + t) *
            s.value_cache (loff + t * p.dim + h * (p.dim / p.nHeads) +
              (idx - h * (p.dim / p.nHeads)))
      else s.xb idx }

/-- The first `m` iterations of the head loop (run.c lines 277-307); the C
loop is a parallel loop whose heads touch disjoint slices, so the sequential
fold is equivalent. -/
def headsUpTo (exq sq : ℚ → ℚ) (p : Config) (pos loff m : Nat) (s : RunState) :
    RunState :=
  (List.range m).foldl (headStep exq sq p pos loff) s

/-- The SiLU loop of the feed-forward block (run.c lines 324-326). -/
def silu (exq : ℚ → ℚ) (hb : Nat → ℚ) (n : Nat) : Nat → ℚ :=
  fun i => if i < n then hb i * (1 / (1 + exq (-(hb i)))) else hb i

/-- The elementwise gate multiply of the feed-forward block (run.c lines
329-331). -/
def gateMul (hb hb2 : Nat → ℚ) (n : Nat) : Nat → ℚ :=
  fun i => if i < n then hb i * hb2 i else hb i

/-- The first half of one layer iteration (run.c lines 240-273): attention
rmsnorm, the qkv matmuls, RoPE on `q` and `k`, and the key/value cache
writes at `(l, pos)`. -/
def layerMid (sq : ℚ → ℚ) (p : Config) (wb : Nat → ℚ) (w : Weights)
    (pos l : Nat) (s : RunState) : RunState :=
  { s with
    xb := rmsnorm sq s.xb s.x (view wb (w.rms_att_weight + l * p.dim)) p.dim,
    q := rope (qkvMatmuls p wb w l
          (rmsnorm sq s.xb s.x (view wb (w.rms_att_weight + l * p.dim)) p.dim)
          s.q s.k s.v).1
        (view wb (w.freq_cis_real + pos * (p.dim / p.nHeads) / 2))
        (view wb (w.freq_cis_imag + pos * (p.dim / p.nHeads) / 2))
        p.nHeads (p.dim / p.nHeads),
    k := rope (qkvMatmuls p wb w l
          (rmsnorm sq s.xb s.x (view wb (w.rms_att_weight + l * p.dim)) p.dim)
          s.q s.k s.v).2.1
        (view wb (w.freq_cis_real + pos * (p.dim / p.nHeads) / 2))
        (view wb (w.freq_cis_imag + pos * (p.dim / p.nHeads) / 2))
        p.nHeads (p.dim / p.nHeads),
    v := (qkvMatmuls p wb w l
          (rmsnorm sq s.xb s.x (view wb (w.rms_att_weight + l * p.dim)) p.dim)
          s.q s.k s.v).2.2,
    key_cache := writeSlot s.key_cache
        (rope (qkvMatmuls p wb w l
            (rmsnorm sq s.xb s.x (view wb (w.rms_att_weight + l * p.dim)) p.dim)
            s.q s.k s.v).2.1
          (view wb (w.freq_cis_real + pos * (p.dim / p.nHeads) / 2))
          (view wb (w.freq_cis_imag + pos * (p.dim / p.nHeads) / 2))
          p.nHeads (p.dim / p.nHeads))
        (l * p.seqLen * p.dim + pos * p.dim) p.dim,
    value_cache := writeSlot s.value_cache
        ((qkvMatmuls p wb w l
            (rmsnorm sq s.xb s.x (view wb (w.rms_att_weight + l * p.dim)) p.dim)
            s.q s.k s.v).2.2)
        (l * p.seqLen * p.dim + pos * p.dim) p.dim }

/-- One iteration of the layer loop of `transformer` (run.c lines 238-338):
`layerMid`, the head loop, the output projection and residual, then the
SiLU-gated feed-forward block and its residual. -/
def layerStep (exq sq : ℚ → ℚ) (p : Config) (wb : Nat → ℚ) (w : Weights)
    (pos : Nat) (s : RunState) (l : Nat) : RunState :=
  let dim := p.dim
  let hidden_dim := p.hiddenDim
  let mid := layerMid sq p wb w pos l s
  let sAtt := headsUpTo exq sq p pos (l * p.seqLen * dim) p.nHeads mid
  let xb2a := matmul s.xb2 sAtt.xb (view wb (w.wo + l * dim * dim)) dim dim
  let x1 := accum s.x xb2a dim
  let xb3 := rmsnorm sq sAtt.xb x1 (view wb (w.rms_ffn_weight + l * dim)) dim
  let hb1 := matmul s.hb xb3 (view wb (w.w1 + l * dim * hidden_dim)) dim hidden_dim
  let hb2a := matmul s.hb2 xb3 (view wb (w.w3 + l * dim * hidden_dim)) dim hidden_dim
  let hb4 := gateMul (silu exq hb1 hidden_dim) hb2a hidden_dim
  let xb4 := matmul xb3 hb4 (view wb (w.w2 + l * dim * hidden_dim)) hidden_dim dim
  let x2 := accum x1 xb4 dim
  { x := x2, xb := xb4, xb2 := xb2a, hb := hb4, hb2 := hb2a,
    q := mid.q, k := mid.k, v := mid.v, att := sAtt.att,
    logits := s.logits, key_cache := mid.key_cache, value_cache := mid.value_cache }

/-- The copy of the token embedding row into `x` (run.c lines 230-231). -/
def embedState (token : Nat) (p : Config) (wb : Nat → ℚ) (w : Weights)
    (s : RunState) : RunState :=
  { s with x := fun i =>
      if i < p.dim then wb (w.token_embedding_table + token * p.dim + i) else s.x i }

/-- The first `m` iterations of the layer loop of `transformer`. -/
def layersUpTo (exq sq : ℚ → ℚ) (p : Config) (wb : Nat → ℚ) (w : Weights)
    (pos m : Nat) (s : RunState) : RunState :=
  (List.range m).foldl (layerStep exq sq p wb w pos) s

/-- Embedding of `transformer` (run.c lines 221-345): embed the token, run all
layers, final rmsnorm of `x` in place, classifier matmul into `logits`. -/
def transformer (exq sq : ℚ → ℚ) (token pos : Nat) (p : Config) (wb : Nat → ℚ)
    (w : Weights) (s : RunState) : RunState :=
  let s1 := layersUpTo exq sq p wb w pos p.nLayers (embedState token p wb w s)
  let x1 := rmsnorm sq s1.x s1.x (view wb w.rms_final_weight) p.dim
  let logits1 := matmul s1.logits x1 (view wb w.wcls) p.dim p.vocabSize
  { s1 with x := x1, logits := logits1 }

/-- The error taxonomy of spec section 7. -/
inductive LlamaError
  | IOError
  | FormatError
  | ConfigError
  | RangeError
  | AllocationError
deriving DecidableEq

/-- The embedded `transformer` lifted into the error monad.  The C function
returns `void` and contains no validation or failure path whatsoever, so the
lift always succeeds. -/
def transformerE (exq sq : ℚ → ℚ) (token pos : Nat) (p : Config) (wb : Nat → ℚ)
    (w : Weights) (s : RunState) : Except LlamaError RunState :=
  .ok (transformer exq sq token pos p wb w s)

/-- Modelled from the spec (section 4.4): the forward pass as the spec
describes it, failing with `RangeError` when `pos ≥ seq_len` or
`t ≥ vocab_size`; no such check exists in run.c. -/
def transformerChecked (exq sq : ℚ → ℚ) (token pos : Nat) (p : Config)
    (wb : Nat → ℚ) (w : Weights) (s : RunState) : Except LlamaError RunState :=
  if p.seqLen ≤ pos then .error .RangeError
  else if p.vocabSize ≤ token then .error .RangeError
  else .ok (transformer exq sq token pos p wb w s)

/-- The scan loop of `argmax` (run.c lines 361-372): state `(i, max_i, max_p)`. -/
def argmaxAux (v : Nat → ℚ) (n : Nat) : Nat → Nat → ℚ → Nat
  | i, max_i, max_p =>
    if _h : i < n then
      if v i > max_p then argmaxAux v n (i + 1) i (v i)
      else argmaxAux v n (i + 1) max_i max_p
    else max_i
termination_by i _ _ => n - i

/-- Embedding of `argmax` (run.c lines 361-372). -/
def argmax (v : Nat → ℚ) (n : Nat) : Nat :=
  argmaxAux v n 1 0 (v 0)

/-- The scan loop of `sample` (run.c lines 347-358): state `(i, cdf)`; falls
back to `n - 1` when the scan exhausts all indices. -/
def sampleAux (pr : Nat → ℚ) (n : Nat) (r : ℚ) : Nat → ℚ → Nat
  | i, cdf =>
    if _h : i < n then
      if r < cdf + pr i then i else sampleAux pr n r (i + 1) (cdf + pr i)
    else n - 1
termination_by i _ => n - i

/-- Embedding of `sample` (run.c lines 347-358). -/
def sample (pr : Nat → ℚ) (n : Nat) (r : ℚ) : Nat :=
  sampleAux pr n r 0 0

/-- The temperature scaling loop of `main` (run.c line 645): divide the first
`vocab` logits by the temperature. -/
def scaleLogits (logits : Nat → ℚ) (vocab : Nat) (temperature : ℚ) : Nat → ℚ :=
  fun q => if q < vocab then logits q / temperature else logits q

/-- The sampling dispatch of the generation loop (run.c lines 640-649):
greedy argmax at temperature zero, otherwise scale, softmax and sample with
the drawn value `r` (the C code draws `r = rand() / RAND_MAX`). -/
def nextToken (exq : ℚ → ℚ) (temperature : ℚ) (logits : Nat → ℚ) (vocab : Nat)
    (r : ℚ) : Nat :=
  if temperature = 0 then argmax logits vocab
  else sample (softmax exq (scaleLogits logits vocab temperature) 0 vocab) vocab r

/-- The generation loop of `main` (run.c lines 635-657), with `fuel` the
number of remaining iterations (`steps - pos`). Returns the final state, the
list of `(token, pos)` arguments passed to `transformer`, and the list of
emitted tokens.  The stream `rs` gives the value `r` drawn at each position. -/
def genLoopAux (exq sq : ℚ → ℚ) (p : Config) (wb : Nat → ℚ) (w : Weights)
    (temperature : ℚ) (rs : Nat → ℚ) :
    Nat → Nat → Nat → RunState → RunState × List (Nat × Nat) × List Nat
  | 0, _, _, s => (s, [], [])
  | fuel + 1, token, pos, s =>
    let s1 := transformer exq sq token pos p wb w s
    let next := nextToken exq temperature s1.logits p.vocabSize (rs pos)
    let rest := genLoopAux exq sq p wb w temperature rs fuel next (pos + 1) s1
    (rest.1, (token, pos) :: rest.2.1, next :: rest.2.2)

/-- The step clamping of `main` (run.c line 484): requested steps that are
non-positive or exceed `seq_len` become `seq_len`. -/
def clampSteps (steps : Int) (seqLen : Nat) : Nat :=
  if steps ≤ 0 ∨ (seqLen : Int) < steps then seqLen else steps.toNat

/-- A whole generation run (run.c lines 518-519 and 635-657): clamp the
requested step count, then loop from `token = 1`, `pos = 0`. -/
def runGeneration (exq sq : ℚ → ℚ) (p : Config) (wb : Nat → ℚ) (w : Weights)
    (temperature : ℚ) (rs : Nat → ℚ) (steps : Int) (s : RunState) :
    RunState × List (Nat × Nat) × List Nat :=
  genLoopAux exq sq p wb w temperature rs (clampSteps steps p.seqLen) 1 0 s

/-- A checkpoint source: its first seven 32-bit words read as ints, and the
remaining words read as floats. -/
structure CheckpointFile where
  header : List Int
  body : List ℚ

/-- Total number of 32-bit words in the file. -/
def CheckpointFile.words (f : CheckpointFile) : Nat :=
  f.header.length + f.body.length

/-- The config parsed from a header (run.c lines 462-465): fields in order;
`vocab_size` is stored as its absolute value. -/
def parseConfig (f : CheckpointFile) : Config :=
  { dim := (f.header.getD 0 0).toNat
    hiddenDim := (f.header.getD 1 0).toNat
    nLayers := (f.header.getD 2 0).toNat
    nHeads := (f.header.getD 3 0).toNat
    nKvHeads := (f.header.getD 4 0).toNat
    vocabSize := (f.header.getD 5 0).natAbs
    seqLen := (f.header.getD 6 0).toNat }

/-- The shared-weights flag (run.c line 464): raw `vocab_size > 0`. -/
def parseShared (f : CheckpointFile) : Bool :=
  0 < f.header.getD 5 0

/-- Embedding of the checkpoint-loading block of `main` (run.c lines
455-482): fail when the source cannot be opened (`none`) or the header read
comes up short; otherwise expose the parsed config, the shared flag, the
tensor offsets and the flat zero-copy view of the remaining words.  The C
code performs no size validation at all beyond the seven header ints. -/
def loadCheckpoint (file : Option CheckpointFile) :
    Except LlamaError (Config × Bool × Weights × (Nat → ℚ)) :=
  match file with
  | none => .error .IOError
  | some f =>
    if f.header.length < 7 then .error .IOError
    else
      .ok (parseConfig f, parseShared f,
           checkpoint_init_weights (parseConfig f) (parseShared f),
           fun i => f.body.getD i 0)

/-- True when the loader exposes a weight view for this source. -/
def loadSucceeds (file : Option CheckpointFile) : Bool :=
  (loadCheckpoint file).toOption.isSome

/-- Modelled from the spec (section 4.1): the number of floats after the
header implied by the seven header ints, i.e. the sum of all tensor sizes of
the layout contract.  run.c never computes this quantity. -/
def totalFloats (p : Config) (shared : Bool) : Nat :=
  let head_size := p.dim / p.nHeads
  p.vocabSize * p.dim + p.nLayers * p.dim +
    4 * (p.nLayers * p.dim * p.dim) + p.nLayers * p.dim +
    3 * (p.nLayers * p.dim * p.hiddenDim) + p.dim +
    2 * (p.seqLen * head_size / 2) +
    (if shared then 0 else p.dim * p.vocabSize)

/-- Pointwise agreement of two buffers on indices below `n`. -/
def AgreeLt (f g : Nat → ℚ) (n : Nat) : Prop := ∀ i, i < n → f i = g i

/-- The all-zero buffer (what `calloc` produces). -/
def zeroBuf : Nat → ℚ := fun _ => 0

/-- The freshly allocated all-zero activation state. -/
def zeroState : RunState :=
  ⟨zeroBuf, zeroBuf, zeroBuf, zeroBuf, zeroBuf, zeroBuf,
   zeroBuf, zeroBuf, zeroBuf, zeroBuf, zeroBuf, zeroBuf⟩

/-- A tiny valid configuration: dim 2, one head, one layer, vocab 2, seq 2. -/
def cfgA : Config := ⟨2, 1, 1, 1, 1, 2, 2⟩

/-- Offsets for `cfgA` with tied classifier weights. -/
def wA : Weights := checkpoint_init_weights cfgA true

/-- A minimal configuration with every dimension 1. -/
def cfgB : Config := ⟨1, 1, 1, 1, 1, 1, 1⟩

/-- Offsets for `cfgB` with tied classifier weights. -/
def wB : Weights := checkpoint_init_weights cfgB true

/-- A weight buffer whose entry at flat index `i` is `i` itself, so distinct
tensor offsets hold distinct values. -/
def wbB : Nat → ℚ := fun i => (i : ℚ)

/-- The all-ones buffer. -/
def oneBuf : Nat → ℚ := fun _ => 1

/-- A state equal to `zeroState` except at index 1 of the `att` buffer. -/
def attState : RunState := { zeroState with att := fun i => if i = 1 then 1 else 0 }

/-- A checkpoint with a complete 7-int header but an empty tensor body:
far smaller than the size the header implies. -/
def undersizedFile : CheckpointFile := ⟨[1, 1, 1, 1, 1, 1, 1], []⟩

/-- A checkpoint whose header read comes up short. -/
def shortFile : CheckpointFile := ⟨[3], []⟩

/-- A header with raw `vocab_size = -3` (untied classifier weights). -/
def untiedFile : CheckpointFile := ⟨[2, 2, 1, 1, 1, -3, 2], []⟩

/-- A header with raw `vocab_size = 3` (tied classifier weights). -/
def tiedFile : CheckpointFile := ⟨[2, 2, 1, 1, 1, 3, 2], []⟩

/-!  ## Basic lemmas about the generation loop  -/

lemma genLoopAux_emitted_length (exq sq : ℚ → ℚ) (p : Config) (wb : Nat → ℚ)
    (w : Weights) (temperature : ℚ) (rs : Nat → ℚ) :
    ∀ (fuel token pos : Nat) (s : RunState),
      (genLoopAux exq sq p wb w temperature rs fuel token pos s).2.2.length = fuel := by
  intro fuel
  induction fuel with
  | zero => intro token pos s; rfl
  | succ f ih =>
    intro token pos s
    simp only [genLoopAux, List.length_cons]
    rw [ih]

lemma clampSteps_le (steps : Int) (seqLen : Nat) : clampSteps steps seqLen ≤ seqLen := by
  unfold clampSteps
  split
  · exact le_refl _
  · next h => omega

/-- C2: for every requested step count and configuration, the generation loop
runs exactly `steps_eff` steps, where `steps_eff = steps` when
`0 < steps ≤ seq_len` and `steps_eff = seq_len` otherwise; in particular a
request of 0 yields exactly `seq_len` emitted tokens. -/
theorem generation_loop_step_count (exq sq : ℚ → ℚ) (p : Config) (wb : Nat → ℚ)
    (w : Weights) (temperature : ℚ) (rs : Nat → ℚ) (steps : Int) (s : RunState) :
    (runGeneration exq sq p wb w temperature rs steps s).2.2.length =
      if 0 < steps ∧ steps ≤ (p.seqLen : Int) then steps.toNat else p.seqLen := by
  unfold runGeneration
  rw [genLoopAux_emitted_length]
  unfold clampSteps
  split
  · next h => rw [if_neg (by omega)]
  · next h => rw [if_pos (by omega)]

/-!  ## The argmax scan (Sampler at temperature 0)  -/

lemma argmaxAux_spec (v : Nat → ℚ) (n : Nat) :
    ∀ (fuel i max_i : Nat) (max_p : ℚ), fuel = n - i → i ≤ n → max_i < i →
      max_p = v max_i → (∀ j, j < i → v j ≤ max_p) → (∀ j, j < max_i → v j < max_p) →
      argmaxAux v n i max_i max_p < n ∧
      (∀ j, j < n → v j ≤ v (argmaxAux v n i max_i max_p)) ∧
      (∀ j, j < argmaxAux v n i max_i max_p → v j < v (argmaxAux v n i max_i max_p)) := by
  intro fuel
  induction fuel with
  | zero =>
    intro i max_i max_p hf hin hmi hmp hle hlt
    have hni : ¬ i < n := by omega
    rw [argmaxAux, dif_neg hni]
    subst hmp
    exact ⟨by omega, fun j hj => hle j (by omega), hlt⟩
  | succ f ih =>
    intro i max_i max_p hf hin hmi hmp hle hlt
    by_cases hlt_n : i < n
    · rw [argmaxAux, dif_pos hlt_n]
      by_cases hv : v i > max_p
      · rw [if_pos hv]
        refine ih (i + 1) i (v i) (by omega) (by omega) (by omega) rfl ?_ ?_
        · intro j hj
          rcases Nat.lt_succ_iff_lt_or_eq.mp hj with hj' | hj'
          · exact le_of_lt (lt_of_le_of_lt (hle j hj') hv)
          · subst hj'; exact le_refl _
        · intro j hj
          exact lt_of_le_of_lt (hle j hj) hv
      · rw [if_neg hv]
        refine ih (i + 1) max_i max_p (by omega) (by omega) (by omega) hmp ?_ hlt
        intro j hj
        rcases Nat.lt_succ_iff_lt_or_eq.mp hj with hj' | hj'
        · exact hle j hj'
        · subst hj'; exact le_of_not_lt hv
    · rw [argmaxAux, dif_neg hlt_n]
      subst hmp
      exact ⟨by omega, fun j hj => hle j (by omega), hlt⟩

lemma argmax_spec (v : Nat → ℚ) (n : Nat) (hn : 1 ≤ n) :
    argmax v n < n ∧ (∀ j, j < n → v j ≤ v (argmax v n)) ∧
      (∀ j, j < argmax v n → v j < v (argmax v n)) := by
  unfold argmax
  exact argmaxAux_spec v n (n - 1) 1 0 (v 0) (by omega) (by omega) (by omega) rfl
    (fun j hj => by interval_cases j; exact le_refl _) (fun j hj => by omega)

/-- C3: at temperature 0 the sampling dispatch is the greedy argmax, and for
every non-empty logits vector the result is an in-range index holding the
maximum value, every strictly earlier index holding a strictly smaller value
(leftmost tie-breaking). -/
theorem sampler_temp0_argmax (exq : ℚ → ℚ) (logits : Nat → ℚ) (n : Nat) (r : ℚ)
    (hn : 1 ≤ n) :
    nextToken exq 0 logits n r = argmax logits n ∧
    argmax logits n < n ∧
    (∀ j, j < n → logits j ≤ logits (argmax logits n)) ∧
    (∀ j, j < argmax logits n → logits j < logits (argmax logits n)) := by
  refine ⟨by simp [nextToken], ?_, ?_, ?_⟩ <;>
    [exact (argmax_spec logits n hn).1; exact (argmax_spec logits n hn).2.1;
     exact (argmax_spec logits n hn).2.2]

/-- Witness for C3 at a concrete tied maximum: entries `[2, 5, 5]`. -/
theorem sampler_temp0_argmax_witness :
    nextToken id 0 (fun i => [(2 : ℚ), 5, 5].getD i 0) 3 0 =
        argmax (fun i => [(2 : ℚ), 5, 5].getD i 0) 3 ∧
      argmax (fun i => [(2 : ℚ), 5, 5].getD i 0) 3 < 3 ∧
      (∀ j, j < 3 → (fun i => [(2 : ℚ), 5, 5].getD i 0) j ≤
        (fun i => [(2 : ℚ), 5, 5].getD i 0) (argmax (fun i => [(2 : ℚ), 5, 5].getD i 0) 3)) ∧
      (∀ j, j < argmax (fun i => [(2 : ℚ), 5, 5].getD i 0) 3 →
        (fun i => [(2 : ℚ), 5, 5].getD i 0) j <
          (fun i => [(2 : ℚ), 5, 5].getD i 0) (argmax (fun i => [(2 : ℚ), 5, 5].getD i 0) 3)) :=
  sampler_temp0_argmax id (fun i => [(2 : ℚ), 5, 5].getD i 0) 3 0 (by decide)

/-!  ## The cumulative-sum scan (Sampler at positive temperature)  -/

lemma sampleAux_spec (pr : Nat → ℚ) (n : Nat) (r : ℚ) :
    ∀ (fuel i : Nat) (cdf : ℚ), fuel = n - i → i ≤ n →
      cdf = ∑ t in Finset.range i, pr t →
      (∀ j, j < i → ¬ r < ∑ t in Finset.range (j + 1), pr t) →
      (1 ≤ n → sampleAux pr n r i cdf < n) ∧
      (∀ j, j < sampleAux pr n r i cdf → ¬ r < ∑ t in Finset.range (j + 1), pr t) ∧
      (r < ∑ t in Finset.range (sampleAux pr n r i cdf + 1), pr t ∨
        sampleAux pr n r i cdf = n - 1) := by
  intro fuel
  induction fuel with
  | zero =>
    intro i cdf hf hin hcdf hmiss
    have hni : ¬ i < n := by omega
    rw [sampleAux, dif_neg hni]
    exact ⟨fun hn => by omega, fun j hj => hmiss j (by omega), Or.inr rfl⟩
  | succ f ih =>
    intro i cdf hf hin hcdf hmiss
    by_cases hi : i < n
    · rw [sampleAux, dif_pos hi]
      by_cases hr : r < cdf + pr i
      · rw [if_pos hr]
        refine ⟨fun _ => hi, fun j hj => hmiss j hj, Or.inl ?_⟩
        rw [Finset.sum_range_succ, ← hcdf]
        exact hr
      · rw [if_neg hr]
        refine ih (i + 1) (cdf + pr i) (by omega) (by omega)
          (by rw [Finset.sum_range_succ, hcdf]) ?_
        intro j hj
        rcases Nat.lt_succ_iff_lt_or_eq.mp hj with hj' | hj'
        · exact hmiss j hj'
        · subst hj'
          rw [Finset.sum_range_succ, ← hcdf]
          exact hr
    · rw [sampleAux, dif_neg hi]
      exact ⟨fun hn => by omega, fun j hj => hmiss j (by omega), Or.inr rfl⟩

lemma sample_spec (pr : Nat → ℚ) (n : Nat) (r : ℚ) (hn : 1 ≤ n) :
    sample pr n r < n ∧
    (∀ j, j < sample pr n r → ¬ r < ∑ t in Finset.range (j + 1), pr t) ∧
    (r < ∑ t in Finset.range (sample pr n r + 1), pr t ∨ sample pr n r = n - 1) := by
  unfold sample
  have h := sampleAux_spec pr n r n 0 0 (by omega) (by omega) (by simp)
    (fun j hj => absurd hj (by omega))
  exact ⟨h.1 hn, h.2.1, h.2.2⟩

/-- C4: at positive temperature the sampling dispatch scales each of the
first `vocab` logits by the temperature, softmaxes them, and scans the
cumulative probability sum against the drawn value `r`, returning the first
index whose cumulative sum exceeds `r` (no smaller index does) and falling
back to the last index `n - 1` when none does; the returned index is always
in range. -/
theorem sampler_temp_pos (exq : ℚ → ℚ) (temperature : ℚ) (logits : Nat → ℚ)
    (n : Nat) (r : ℚ) (htemp : 0 < temperature) (hn : 1 ≤ n) :
    nextToken exq temperature logits n r =
      sample (softmax exq (scaleLogits logits n temperature) 0 n) n r ∧
    nextToken exq temperature logits n r < n ∧
    (∀ j, j < nextToken exq temperature logits n r →
      ¬ r < ∑ t in Finset.range (j + 1), softmax exq (scaleLogits logits n temperature) 0 n t) ∧
    (r < ∑ t in Finset.range (nextToken exq temperature logits n r + 1),
        softmax exq (scaleLogits logits n temperature) 0 n t ∨
      nextToken exq temperature logits n r = n - 1) := by
  have heq : nextToken exq temperature logits n r =
      sample (softmax exq (scaleLogits logits n temperature) 0 n) n r := by
    unfold nextToken
    rw [if_neg htemp.ne']
  rw [heq]
  exact ⟨rfl, (sample_spec _ n r hn).1, (sample_spec _ n r hn).2.1,
    (sample_spec _ n r hn).2.2⟩

/-- Witness for C4 at temperature 1 on the all-zero logits vector of size 2. -/
theorem sampler_temp_pos_witness :
    nextToken id 1 zeroBuf 2 0 =
      sample (softmax id (scaleLogits zeroBuf 2 1) 0 2) 2 0 ∧
    nextToken id 1 zeroBuf 2 0 < 2 ∧
    (∀ j, j < nextToken id 1 zeroBuf 2 0 →
      ¬ (0 : ℚ) < ∑ t in Finset.range (j + 1), softmax id (scaleLogits zeroBuf 2 1) 0 2 t) ∧
    ((0 : ℚ) < ∑ t in Finset.range (nextToken id 1 zeroBuf 2 0 + 1),
        softmax id (scaleLogits zeroBuf 2 1) 0 2 t ∨
      nextToken id 1 zeroBuf 2 0 = 2 - 1) :=
  sampler_temp_pos id 1 zeroBuf 2 0 (by norm_num) (by norm_num)

/-!  ## Checkpoint loading: vocab sign flag and classifier tying (C5)  -/

/-- C5: a negative raw `vocab_size` makes the loader mark the classifier as
untied, store the absolute value as the vocabulary size, and place `wcls`
directly after `freq_cis_imag`; a positive raw value ties `wcls` to the token
embedding table, so the classifier matmul coincides with the matmul against
the embedding table viewed as a `(vocab_size, dim)` projection. -/
theorem vocab_sign_and_classifier (f : CheckpointFile) :
    (f.header.getD 5 0 < 0 →
      parseShared f = false ∧
      (parseConfig f).vocabSize = (f.header.getD 5 0).natAbs ∧
      (checkpoint_init_weights (parseConfig f) (parseShared f)).wcls =
        (checkpoint_init_weights (parseConfig f) (parseShared f)).freq_cis_imag +
          (parseConfig f).seqLen * ((parseConfig f).dim / (parseConfig f).nHeads) / 2) ∧
    (0 < f.header.getD 5 0 →
      parseShared f = true ∧
      (parseConfig f).vocabSize = (f.header.getD 5 0).natAbs ∧
      (checkpoint_init_weights (parseConfig f) (parseShared f)).wcls =
        (checkpoint_init_weights (parseConfig f) (parseShared f)).token_embedding_table ∧
      ∀ (wb x old : Nat → ℚ),
        matmul old x (view wb (checkpoint_init_weights (parseConfig f) (parseShared f)).wcls)
            (parseConfig f).dim (parseConfig f).vocabSize =
          matmul old x
            (view wb (checkpoint_init_weights (parseConfig f) (parseShared f)).token_embedding_table)
            (parseConfig f).dim (parseConfig f).vocabSize) := by
  constructor
  · intro hneg
    have hs : parseShared f = false := by
      simp only [parseShared, decide_eq_false_iff_not]
      omega
    refine ⟨hs, rfl, ?_⟩
    rw [hs]
    rfl
  · intro hpos
    have hs : parseShared f = true := by
      simp only [parseShared, decide_eq_true_eq]
      omega
    refine ⟨hs, rfl, ?_, ?_⟩
    · rw [hs]
      rfl
    · intro wb x old
      rw [hs]
      rfl

/-- Witness for C5 at a header with raw vocab -3 and one with raw vocab 3. -/
theorem vocab_sign_and_classifier_witness :
    (parseShared untiedFile = false ∧
     (parseConfig untiedFile).vocabSize = (untiedFile.header.getD 5 0).natAbs ∧
     (checkpoint_init_weights (parseConfig untiedFile) (parseShared untiedFile)).wcls =
       (checkpoint_init_weights (parseConfig untiedFile) (parseShared untiedFile)).freq_cis_imag +
         (parseConfig untiedFile).seqLen *
           ((parseConfig untiedFile).dim / (parseConfig untiedFile).nHeads) / 2) ∧
    (parseShared tiedFile = true ∧
     (parseConfig tiedFile).vocabSize = (tiedFile.header.getD 5 0).natAbs ∧
     (checkpoint_init_weights (parseConfig tiedFile) (parseShared tiedFile)).wcls =
       (checkpoint_init_weights (parseConfig tiedFile) (parseShared tiedFile)).token_embedding_table ∧
     ∀ (wb x old : Nat → ℚ),
       matmul old x (view wb (checkpoint_init_weights (parseConfig tiedFile) (parseShared tiedFile)).wcls)
           (parseConfig tiedFile).dim (parseConfig tiedFile).vocabSize =
         matmul old x
           (view wb (checkpoint_init_weights (parseConfig tiedFile) (parseShared tiedFile)).token_embedding_table)
           (parseConfig tiedFile).dim (parseConfig tiedFile).vocabSize) :=
  ⟨(vocab_sign_and_classifier untiedFile).1 (by decide),
   (vocab_sign_and_classifier tiedFile).2 (by decide)⟩

/-!  ## Checkpoint loading: error behavior (C7)  -/

/-- C7 counterexample: a checkpoint source with a complete header but an
empty body is strictly smaller than the size the header implies, yet the
embedded loader succeeds and exposes weight views; run.c never compares the
file size against the header-implied size, so no `FormatError` exists. -/
theorem loader_missing_size_check_counterexample :
    undersizedFile.words <
      7 + totalFloats (parseConfig undersizedFile) (parseShared undersizedFile) ∧
    loadSucceeds (some undersizedFile) = true ∧
    loadCheckpoint (some undersizedFile) ≠ Except.error LlamaError.FormatError := by
  refine ⟨by decide, by decide, ?_⟩
  intro h
  have hs : loadSucceeds (some undersizedFile) = true := by decide
  rw [loadSucceeds, h] at hs
  simp [Except.toOption] at hs

/-- C7 amended: the loader fails with `IOError` when the source cannot be
opened (`none`) or the seven-int header read comes up short; it performs no
size validation, so for every source with a complete header it succeeds and
exposes the weight views regardless of how small the body is. -/
theorem loader_error_conditions (f : CheckpointFile) :
    loadCheckpoint none = Except.error LlamaError.IOError ∧
    (f.header.length < 7 → loadCheckpoint (some f) = Except.error LlamaError.IOError) ∧
    (7 ≤ f.header.length → loadSucceeds (some f) = true) := by
  refine ⟨rfl, ?_, ?_⟩
  · intro h
    simp only [loadCheckpoint]
    rw [if_pos h]
  · intro h
    simp only [loadSucceeds, loadCheckpoint]
    rw [if_neg (by omega)]
    rfl

/-- Witness for C7 amended at a one-int header and at a complete header. -/
theorem loader_error_conditions_witness :
    loadCheckpoint (some shortFile) = Except.error LlamaError.IOError ∧
    loadSucceeds (some undersizedFile) = true :=
  ⟨(loader_error_conditions shortFile).2.1 (by decide),
   (loader_error_conditions undersizedFile).2.2 (by decide)⟩

/-!  ## The qkv projections of one layer (C8)  -/

/-- C8 counterexample: the spec text says the key vector is `Wv·xb`, but the
layer computes `k` from the `wk` tensor: over the flat buffer `wbB` (value
`i` at index `i`, so the `wk` and `wv` regions differ) the computed key entry
equals the `wk` product and differs from the `wv` product. -/
theorem qkv_wv_for_k_counterexample :
    (qkvMatmuls cfgB wbB wB 0 oneBuf zeroBuf zeroBuf zeroBuf).2.1 0 =
        matmul zeroBuf oneBuf (view wbB (wB.wk + 0 * cfgB.dim * cfgB.dim))
          cfgB.dim cfgB.dim 0 ∧
    (qkvMatmuls cfgB wbB wB 0 oneBuf zeroBuf zeroBuf zeroBuf).2.1 0 ≠
        matmul zeroBuf oneBuf (view wbB (wB.wv + 0 * cfgB.dim * cfgB.dim))
          cfgB.dim cfgB.dim 0 := by
  constructor
  · rfl
  · have hk : (qkvMatmuls cfgB wbB wB 0 oneBuf zeroBuf zeroBuf zeroBuf).2.1 0 = 3 := by
      simp [qkvMatmuls, matmul, dotRow, view, wbB, oneBuf, wB, cfgB,
        checkpoint_init_weights, Finset.sum_range_succ]
    have hv : matmul zeroBuf oneBuf (view wbB (wB.wv + 0 * cfgB.dim * cfgB.dim))
        cfgB.dim cfgB.dim 0 = 4 := by
      simp [matmul, dotRow, view, wbB, oneBuf, wB, cfgB,
        checkpoint_init_weights, Finset.sum_range_succ]
    rw [hk, hv]
    norm_num

/-- C8 amended: in step 2b each layer computes the three matrix-vector
products `q = Wq·xb`, `k = Wk·xb` and `v = Wv·xb` of the layer's projection
matrices (at their §4.1 offsets) with the normalized residual `xb`. -/
theorem qkv_projections (p : Config) (wb : Nat → ℚ) (w : Weights) (l : Nat)
    (xbf qold kold vold : Nat → ℚ) (i : Nat) (hi : i < p.dim) :
    (qkvMatmuls p wb w l xbf qold kold vold).1 i =
        dotRow (view wb (w.wq + l * p.dim * p.dim)) xbf p.dim i ∧
    (qkvMatmuls p wb w l xbf qold kold vold).2.1 i =
        dotRow (view wb (w.wk + l * p.dim * p.dim)) xbf p.dim i ∧
    (qkvMatmuls p wb w l xbf qold kold vold).2.2 i =
        dotRow (view wb (w.wv + l * p.dim * p.dim)) xbf p.dim i :=
  ⟨if_pos hi, if_pos hi, if_pos hi⟩

/-- Witness for C8 amended at the minimal configuration. -/
theorem qkv_projections_witness :
    (qkvMatmuls cfgB wbB wB 0 oneBuf zeroBuf zeroBuf zeroBuf).1 0 =
        dotRow (view wbB (wB.wq + 0 * cfgB.dim * cfgB.dim)) oneBuf cfgB.dim 0 ∧
    (qkvMatmuls cfgB wbB wB 0 oneBuf zeroBuf zeroBuf zeroBuf).2.1 0 =
        dotRow (view wbB (wB.wk + 0 * cfgB.dim * cfgB.dim)) oneBuf cfgB.dim 0 ∧
    (qkvMatmuls cfgB wbB wB 0 oneBuf zeroBuf zeroBuf zeroBuf).2.2 0 =
        dotRow (view wbB (wB.wv + 0 * cfgB.dim * cfgB.dim)) oneBuf cfgB.dim 0 :=
  qkv_projections cfgB wbB wB 0 oneBuf zeroBuf zeroBuf zeroBuf 0 (by decide)

/-!  ## Flat cache-index arithmetic  -/

lemma mul_add_cancel_unique {m a b c e : Nat} (hm : 0 < m) (hb : b < m) (he : e < m)
    (h : a * m + b = c * m + e) : a = c ∧ b = e := by
  have h1 : (a * m + b) % m = b := by
    rw [Nat.add_comm, Nat.add_mul_mod_self_right]
    exact Nat.mod_eq_of_lt hb
  have h2 : (c * m + e) % m = e := by
    rw [Nat.add_comm, Nat.add_mul_mod_self_right]
    exact Nat.mod_eq_of_lt he
  have hbe : b = e := by rw [← h1, h, h2]
  subst hbe
  have hac : a * m = c * m := by omega
  exact ⟨Nat.eq_of_mul_eq_mul_right hm hac, rfl⟩

/-- A flat index can lie in the cache slot `(l, t)` and in the write window of
slot `(l2, pos)` only when the two slots coincide. -/
lemma slot_window_inter (p : Config) (hdim : 0 < p.dim) {l t i l2 pos j : Nat}
    (ht : t < p.seqLen) (hpos : pos < p.seqLen) (hi : i < p.dim) (hj : j < p.dim)
    (heq : slotIdx p l t i = l2 * p.seqLen * p.dim + pos * p.dim + j) :
    l = l2 ∧ t = pos ∧ i = j := by
  have hb : t * p.dim + i < p.seqLen * p.dim :=
    lt_of_lt_of_le (by rw [Nat.succ_mul]; omega)
      (Nat.mul_le_mul_right _ (by omega : t + 1 ≤ p.seqLen))
  have he : pos * p.dim + j < p.seqLen * p.dim :=
    lt_of_lt_of_le (by rw [Nat.succ_mul]; omega)
      (Nat.mul_le_mul_right _ (by omega : pos + 1 ≤ p.seqLen))
  have heq' : l * (p.seqLen * p.dim) + (t * p.dim + i) =
      l2 * (p.seqLen * p.dim) + (pos * p.dim + j) := by
    rw [← Nat.mul_assoc, ← Nat.mul_assoc, ← Nat.add_assoc, ← Nat.add_assoc]
    simpa [slotIdx] using heq
  have hLD : 0 < p.seqLen * p.dim := Nat.mul_pos (by omega) hdim
  obtain ⟨hl, hrest⟩ := mul_add_cancel_unique hLD hb he heq'
  obtain ⟨htp, hij⟩ := mul_add_cancel_unique hdim hi hj hrest
  exact ⟨hl, htp, hij⟩

/-- A slot at position `t ≠ pos` never meets the write window of any layer's
slot at position `pos`. -/
lemma slot_outside_window (p : Config) (hdim : 0 < p.dim) {l t i l2 pos : Nat}
    (ht : t < p.seqLen) (hpos : pos < p.seqLen) (hne : t ≠ pos) (hi : i < p.dim) :
    ¬ (l2 * p.seqLen * p.dim + pos * p.dim ≤ slotIdx p l t i ∧
       slotIdx p l t i < l2 * p.seqLen * p.dim + pos * p.dim + p.dim) := by
  rintro ⟨h1, h2⟩
  obtain ⟨-, htp, -⟩ :=
    @slot_window_inter p hdim l t i l2 pos
      (slotIdx p l t i - (l2 * p.seqLen * p.dim + pos * p.dim))
      ht hpos hi (by omega) (by omega)
  exact hne htp

/-- A slot of layer `l ≠ l2` never meets the write window of layer `l2` at the
same position. -/
lemma slot_outside_window_layer (p : Config) (hdim : 0 < p.dim) {l t i l2 : Nat}
    (ht : t < p.seqLen) (hi : i < p.dim) (hne : l ≠ l2) :
    ¬ (l2 * p.seqLen * p.dim + t * p.dim ≤ slotIdx p l t i ∧
       slotIdx p l t i < l2 * p.seqLen * p.dim + t * p.dim + p.dim) := by
  rintro ⟨h1, h2⟩
  obtain ⟨hl, -, -⟩ :=
    @slot_window_inter p hdim l t i l2 t
      (slotIdx p l t i - (l2 * p.seqLen * p.dim + t * p.dim))
      ht ht hi (by omega) (by omega)
  exact hne hl

/-!  ## Cache frame properties of one forward pass  -/

lemma writeSlot_frame (cache src : Nat → ℚ) (start dim idx : Nat)
    (h : ¬ (start ≤ idx ∧ idx < start + dim)) :
    writeSlot cache src start dim idx = cache idx := if_neg h

lemma writeSlot_hit (cache src : Nat → ℚ) (start dim i : Nat) (hi : i < dim) :
    writeSlot cache src start dim (start + i) = src i := by
  unfold writeSlot
  rw [if_pos ⟨Nat.le_add_right _ _, by omega⟩, Nat.add_sub_cancel_left]

section Frame

variable (exq sq : ℚ → ℚ) (p : Config) (wb : Nat → ℚ) (w : Weights) (pos : Nat)

lemma layerStep_key_frame (s : RunState) (l idx : Nat)
    (h : ¬ (l * p.seqLen * p.dim + pos * p.dim ≤ idx ∧
            idx < l * p.seqLen * p.dim + pos * p.dim + p.dim)) :
    (layerStep exq sq p wb w pos s l).key_cache idx = s.key_cache idx :=
  writeSlot_frame _ _ _ _ _ h

lemma layerStep_value_frame (s : RunState) (l idx : Nat)
    (h : ¬ (l * p.seqLen * p.dim + pos * p.dim ≤ idx ∧
            idx < l * p.seqLen * p.dim + pos * p.dim + p.dim)) :
    (layerStep exq sq p wb w pos s l).value_cache idx = s.value_cache idx :=
  writeSlot_frame _ _ _ _ _ h

lemma layerStep_key_write (s : RunState) (l i : Nat) (hi : i < p.dim) :
    (layerStep exq sq p wb w pos s l).key_cache (slotIdx p l pos i) =
      (layerStep exq sq p wb w pos s l).k i :=
  writeSlot_hit _ _ _ _ i hi

lemma layerStep_value_write (s : RunState) (l i : Nat) (hi : i < p.dim) :
    (layerStep exq sq p wb w pos s l).value_cache (slotIdx p l pos i) =
      (layerStep exq sq p wb w pos s l).v i :=
  writeSlot_hit _ _ _ _ i hi

lemma layersUpTo_succ (m : Nat) (s : RunState) :
    layersUpTo exq sq p wb w pos (m + 1) s =
      layerStep exq sq p wb w pos (layersUpTo exq sq p wb w pos m s) m := by
  unfold layersUpTo
  rw [List.range_succ, List.foldl_append, List.foldl_cons, List.foldl_nil]

lemma layersUpTo_key_frame :
    ∀ (m : Nat) (s : RunState) (idx : Nat),
      (∀ l, l < m → ¬ (l * p.seqLen * p.dim + pos * p.dim ≤ idx ∧
        idx < l * p.seqLen * p.dim + pos * p.dim + p.dim)) →
      (layersUpTo exq sq p wb w pos m s).key_cache idx = s.key_cache idx := by
  intro m
  induction m with
  | zero => intro s idx _; rfl
  | succ m ih =>
    intro s idx h
    rw [layersUpTo_succ,
      layerStep_key_frame exq sq p wb w pos _ m idx (h m (by omega))]
    exact ih s idx (fun l hl => h l (by omega))

lemma layersUpTo_value_frame :
    ∀ (m : Nat) (s : RunState) (idx : Nat),
      (∀ l, l < m → ¬ (l * p.seqLen * p.dim + pos * p.dim ≤ idx ∧
        idx < l * p.seqLen * p.dim + pos * p.dim + p.dim)) →
      (layersUpTo exq sq p wb w pos m s).value_cache idx = s.value_cache idx := by
  intro m
  induction m with
  | zero => intro s idx _; rfl
  | succ m ih =>
    intro s idx h
    rw [layersUpTo_succ,
      layerStep_value_frame exq sq p wb w pos _ m idx (h m (by omega))]
    exact ih s idx (fun l hl => h l (by omega))

lemma transformer_key_frame (token : Nat) (s : RunState) (hdim : 0 < p.dim)
    (hpos : pos < p.seqLen) {l t i : Nat} (ht : t < p.seqLen) (hne : t ≠ pos)
    (hi : i < p.dim) :
    keyAt p (transformer exq sq token pos p wb w s) l t i = keyAt p s l t i :=
  layersUpTo_key_frame exq sq p wb w pos p.nLayers (embedState token p wb w s)
    (slotIdx p l t i)
    (fun l2 _ => slot_outside_window p hdim ht hpos hne hi)

lemma transformer_value_frame (token : Nat) (s : RunState) (hdim : 0 < p.dim)
    (hpos : pos < p.seqLen) {l t i : Nat} (ht : t < p.seqLen) (hne : t ≠ pos)
    (hi : i < p.dim) :
    valAt p (transformer exq sq token pos p wb w s) l t i = valAt p s l t i :=
  layersUpTo_value_frame exq sq p wb w pos p.nLayers (embedState token p wb w s)
    (slotIdx p l t i)
    (fun l2 _ => slot_outside_window p hdim ht hpos hne hi)

lemma layersUpTo_key_write (s0 : RunState) (hdim : 0 < p.dim)
    (hpos : pos < p.seqLen) {l i : Nat} (hi : i < p.dim) :
    ∀ m, l < m →
      (layersUpTo exq sq p wb w pos m s0).key_cache (slotIdx p l pos i) =
        (layersUpTo exq sq p wb w pos (l + 1) s0).k i := by
  intro m
  induction m with
  | zero => intro h; exact absurd h (by omega)
  | succ m ih =>
    intro hlm
    by_cases hl : l = m
    · subst hl
      rw [layersUpTo_succ, layerStep_key_write exq sq p wb w pos _ l i hi,
        ← layersUpTo_succ]
    · rw [layersUpTo_succ,
        layerStep_key_frame exq sq p wb w pos _ m _
          (slot_outside_window_layer p hdim hpos hi hl)]
      exact ih (by omega)

lemma layersUpTo_value_write (s0 : RunState) (hdim : 0 < p.dim)
    (hpos : pos < p.seqLen) {l i : Nat} (hi : i < p.dim) :
    ∀ m, l < m →
      (layersUpTo exq sq p wb w pos m s0).value_cache (slotIdx p l pos i) =
        (layersUpTo exq sq p wb w pos (l + 1) s0).v i := by
  intro m
  induction m with
  | zero => intro h; exact absurd h (by omega)
  | succ m ih =>
    intro hlm
    by_cases hl : l = m
    · subst hl
      rw [layersUpTo_succ, layerStep_value_write exq sq p wb w pos _ l i hi,
        ← layersUpTo_succ]
    · rw [layersUpTo_succ,
        layerStep_value_frame exq sq p wb w pos _ m _
          (slot_outside_window_layer p hdim hpos hi hl)]
      exact ih (by omega)

lemma transformer_key_write (token : Nat) (s : RunState) (hdim : 0 < p.dim)
    (hpos : pos < p.seqLen) {l i : Nat} (hl : l < p.nLayers) (hi : i < p.dim) :
    keyAt p (transformer exq sq token pos p wb w s) l pos i =
      (layersUpTo exq sq p wb w pos (l + 1) (embedState token p wb w s)).k i :=
  layersUpTo_key_write exq sq p wb w pos (embedState token p wb w s) hdim hpos hi
    p.nLayers hl

lemma transformer_value_write (token : Nat) (s : RunState) (hdim : 0 < p.dim)
    (hpos : pos < p.seqLen) {l i : Nat} (hl : l < p.nLayers) (hi : i < p.dim) :
    valAt p (transformer exq sq token pos p wb w s) l pos i =
      (layersUpTo exq sq p wb w pos (l + 1) (embedState token p wb w s)).v i :=
  layersUpTo_value_write exq sq p wb w pos (embedState token p wb w s) hdim hpos hi
    p.nLayers hl

end Frame

/-!  ## C1: no range validation in the forward pass  -/

/-- C1 counterexample: at `token = vocab_size` (out of range, with `pos` in
range) the spec-modelled checked forward pass fails with `RangeError`, but the
embedded run.c forward pass succeeds: `transformer` performs no range
validation at all. -/
theorem transformer_no_range_check_counterexample :
    cfgA.vocabSize ≤ 2 ∧
    transformerChecked id id 2 0 cfgA zeroBuf wA zeroState =
      Except.error LlamaError.RangeError ∧
    (transformerE id id 2 0 cfgA zeroBuf wA zeroState).toOption.isSome = true ∧
    transformerE id id 2 0 cfgA zeroBuf wA zeroState ≠
      transformerChecked id id 2 0 cfgA zeroBuf wA zeroState := by
  refine ⟨by decide, rfl, rfl, ?_⟩
  intro h
  have h2 : transformerChecked id id 2 0 cfgA zeroBuf wA zeroState =
      Except.error LlamaError.RangeError := rfl
  rw [h2] at h
  exact absurd h (by simp [transformerE])

/-- C1 amended: the forward pass has no failure path at all (it never range
checks), and under the preconditions `pos < seq_len` and `token < vocab_size`
its only effect on persistent state is on the `(layer, pos)` key/value cache
slots: every cache slot at a position other than `pos` is left unchanged
(scratch buffers may be freely mutated). -/
theorem transformer_total_and_cache_frame (exq sq : ℚ → ℚ) (token pos : Nat)
    (p : Config) (wb : Nat → ℚ) (w : Weights) (s : RunState)
    (hdim : 0 < p.dim) (hpos : pos < p.seqLen) (htok : token < p.vocabSize) :
    transformerE exq sq token pos p wb w s =
      Except.ok (transformer exq sq token pos p wb w s) ∧
    (∀ l t i, t < p.seqLen → t ≠ pos → i < p.dim →
      keyAt p (transformer exq sq token pos p wb w s) l t i = keyAt p s l t i ∧
      valAt p (transformer exq sq token pos p wb w s) l t i = valAt p s l t i) :=
  ⟨rfl, fun _l t i ht hne hi =>
    ⟨transformer_key_frame exq sq p wb w pos token s hdim hpos ht hne hi,
     transformer_value_frame exq sq p wb w pos token s hdim hpos ht hne hi⟩⟩

/-- Witness for C1 amended at the tiny configuration `cfgA`, token 1,
position 0. -/
theorem transformer_total_and_cache_frame_witness :
    transformerE id id 1 0 cfgA zeroBuf wA zeroState =
      Except.ok (transformer id id 1 0 cfgA zeroBuf wA zeroState) ∧
    (∀ l t i, t < cfgA.seqLen → t ≠ 0 → i < cfgA.dim →
      keyAt cfgA (transformer id id 1 0 cfgA zeroBuf wA zeroState) l t i =
        keyAt cfgA zeroState l t i ∧
      valAt cfgA (transformer id id 1 0 cfgA zeroBuf wA zeroState) l t i =
        valAt cfgA zeroState l t i) :=
  transformer_total_and_cache_frame id id 1 0 cfgA zeroBuf wA zeroState
    (by decide) (by decide) (by decide)

/-!  ## The generation loop: in-range calls (C10) and cache lifecycle (C6)  -/

lemma nextToken_lt (exq : ℚ → ℚ) (temperature : ℚ) (logits : Nat → ℚ) (n : Nat)
    (r : ℚ) (hn : 1 ≤ n) : nextToken exq temperature logits n r < n := by
  unfold nextToken
  split
  · exact (argmax_spec logits n hn).1
  · exact (sample_spec _ n r hn).1

lemma genLoopAux_succ_state (exq sq : ℚ → ℚ) (p : Config) (wb : Nat → ℚ)
    (w : Weights) (temperature : ℚ) (rs : Nat → ℚ) (f token pos : Nat)
    (s : RunState) :
    (genLoopAux exq sq p wb w temperature rs (f + 1) token pos s).1 =
      (genLoopAux exq sq p wb w temperature rs f
        (nextToken exq temperature
          (transformer exq sq token pos p wb w s).logits p.vocabSize (rs pos))
        (pos + 1) (transformer exq sq token pos p wb w s)).1 := rfl

lemma genLoopAux_succ_calls (exq sq : ℚ → ℚ) (p : Config) (wb : Nat → ℚ)
    (w : Weights) (temperature : ℚ) (rs : Nat → ℚ) (f token pos : Nat)
    (s : RunState) :
    (genLoopAux exq sq p wb w temperature rs (f + 1) token pos s).2.1 =
      (token, pos) ::
        (genLoopAux exq sq p wb w temperature rs f
          (nextToken exq temperature
            (transformer exq sq token pos p wb w s).logits p.vocabSize (rs pos))
          (pos + 1) (transformer exq sq token pos p wb w s)).2.1 := rfl

lemma genLoopAux_calls_spec (exq sq : ℚ → ℚ) (p : Config) (wb : Nat → ℚ)
    (w : Weights) (temperature : ℚ) (rs : Nat → ℚ) :
    ∀ (fuel token pos : Nat) (s : RunState), token < p.vocabSize →
      ∀ c ∈ (genLoopAux exq sq p wb w temperature rs fuel token pos s).2.1,
        c.1 < p.vocabSize ∧ pos ≤ c.2 ∧ c.2 < pos + fuel := by
  intro fuel
  induction fuel with
  | zero =>
    intro token pos s htok c hc
    exact absurd hc (by simp [genLoopAux])
  | succ f ih =>
    intro token pos s htok c hc
    rw [genLoopAux_succ_calls] at hc
    rcases List.mem_cons.mp hc with hc | hc
    · subst hc
      exact ⟨htok, le_refl _, by omega⟩
    · have h := ih _ (pos + 1) _
        (nextToken_lt exq temperature _ p.vocabSize (rs pos) (by omega)) c hc
      exact ⟨h.1, by omega, by omega⟩

/-- C10: starting from the initial state (token 1, position 0) with at least
two vocabulary entries, every call the generation loop makes to the forward
pass satisfies `token < vocab_size` and `pos < seq_len`: the initial token is
in range, every subsequent token comes from `argmax` or `sample` over exactly
`vocab_size` entries (both of which return an in-range index), and the
clamped step count keeps every position below `seq_len`. -/
theorem generation_calls_in_range (exq sq : ℚ → ℚ) (p : Config) (wb : Nat → ℚ)
    (w : Weights) (temperature : ℚ) (rs : Nat → ℚ) (steps : Int) (s : RunState)
    (hv : 2 ≤ p.vocabSize) :
    ∀ c ∈ (runGeneration exq sq p wb w temperature rs steps s).2.1,
      c.1 < p.vocabSize ∧ c.2 < p.seqLen := by
  intro c hc
  have h := genLoopAux_calls_spec exq sq p wb w temperature rs
    (clampSteps steps p.seqLen) 1 0 s (by omega) c hc
  have hcl := clampSteps_le steps p.seqLen
  exact ⟨h.1, by omega⟩

/-- Witness for C10: the single call of a one-step run at `cfgA`. -/
theorem generation_calls_in_range_witness :
    (1, 0).1 < cfgA.vocabSize ∧ (1, 0).2 < cfgA.seqLen :=
  generation_calls_in_range id id cfgA zeroBuf wA 0 zeroBuf 1 zeroState
    (by decide) (1, 0) (by decide)

lemma genLoop_preserves_earlier_slots (exq sq : ℚ → ℚ) (p : Config)
    (wb : Nat → ℚ) (w : Weights) (temperature : ℚ) (rs : Nat → ℚ)
    (hdim : 0 < p.dim) :
    ∀ (fuel token pos : Nat) (s : RunState), pos + fuel ≤ p.seqLen →
      ∀ l t i, t < pos → i < p.dim →
        keyAt p (genLoopAux exq sq p wb w temperature rs fuel token pos s).1 l t i =
          keyAt p s l t i ∧
        valAt p (genLoopAux exq sq p wb w temperature rs fuel token pos s).1 l t i =
          valAt p s l t i := by
  intro fuel
  induction fuel with
  | zero => intro token pos s h l t i ht hi; exact ⟨rfl, rfl⟩
  | succ f ih =>
    intro token pos s h l t i ht hi
    rw [genLoopAux_succ_state]
    have hmid := ih
      (nextToken exq temperature
        (transformer exq sq token pos p wb w s).logits p.vocabSize (rs pos))
      (pos + 1) (transformer exq sq token pos p wb w s)
      (by omega) l t i (by omega) hi
    constructor
    · rw [hmid.1]
      exact transformer_key_frame exq sq p wb w pos token s hdim (by omega)
        (by omega) (by omega) hi
    · rw [hmid.2]
      exact transformer_value_frame exq sq p wb w pos token s hdim (by omega)
        (by omega) (by omega) hi

lemma genLoop_preserves_future_slots (exq sq : ℚ → ℚ) (p : Config)
    (wb : Nat → ℚ) (w : Weights) (temperature : ℚ) (rs : Nat → ℚ)
    (hdim : 0 < p.dim) :
    ∀ (fuel token pos : Nat) (s : RunState), ∀ l t i, pos + fuel ≤ t →
      t < p.seqLen → i < p.dim →
        keyAt p (genLoopAux exq sq p wb w temperature rs fuel token pos s).1 l t i =
          keyAt p s l t i ∧
        valAt p (genLoopAux exq sq p wb w temperature rs fuel token pos s).1 l t i =
          valAt p s l t i := by
  intro fuel
  induction fuel with
  | zero => intro token pos s l t i hf ht hi; exact ⟨rfl, rfl⟩
  | succ f ih =>
    intro token pos s l t i hf ht hi
    rw [genLoopAux_succ_state]
    have hmid := ih
      (nextToken exq temperature
        (transformer exq sq token pos p wb w s).logits p.vocabSize (rs pos))
      (pos + 1) (transformer exq sq token pos p wb w s)
      l t i (by omega) ht hi
    constructor
    · rw [hmid.1]
      exact transformer_key_frame exq sq p wb w pos token s hdim (by omega)
        ht (by omega) hi
    · rw [hmid.2]
      exact transformer_value_frame exq sq p wb w pos token s hdim (by omega)
        ht (by omega) hi

/-- C6: over a generation run, the key/value cache slot `(l, t)` is written
exactly once, at the step whose position equals `t`: (a) a forward pass at
position `pos` leaves every slot at a position `t ≠ pos` unchanged, so steps
at other positions only read it; (b) the forward pass at position `t` does
write slot `(l, t)`, storing the key/value vectors computed by its layer-`l`
iteration; (c) the loop iterations at positions above `t` never alter the
slot afterwards; (d) the loop iterations at positions up to but excluding `t`
never touch it beforehand. -/
theorem cache_slot_written_once (exq sq : ℚ → ℚ) (p : Config) (wb : Nat → ℚ)
    (w : Weights) (temperature : ℚ) (rs : Nat → ℚ) (hdim : 0 < p.dim) :
    (∀ token pos s l t i, pos < p.seqLen → t < p.seqLen → t ≠ pos → i < p.dim →
      keyAt p (transformer exq sq token pos p wb w s) l t i = keyAt p s l t i ∧
      valAt p (transformer exq sq token pos p wb w s) l t i = valAt p s l t i) ∧
    (∀ token t s l i, t < p.seqLen → l < p.nLayers → i < p.dim →
      keyAt p (transformer exq sq token t p wb w s) l t i =
        (layersUpTo exq sq p wb w t (l + 1) (embedState token p wb w s)).k i ∧
      valAt p (transformer exq sq token t p wb w s) l t i =
        (layersUpTo exq sq p wb w t (l + 1) (embedState token p wb w s)).v i) ∧
    (∀ fuel token pos s l t i, pos + fuel ≤ p.seqLen → t < pos → i < p.dim →
      keyAt p (genLoopAux exq sq p wb w temperature rs fuel token pos s).1 l t i =
        keyAt p s l t i ∧
      valAt p (genLoopAux exq sq p wb w temperature rs fuel token pos s).1 l t i =
        valAt p s l t i) ∧
    (∀ fuel token pos s l t i, pos + fuel ≤ t → t < p.seqLen → i < p.dim →
      keyAt p (genLoopAux exq sq p wb w temperature rs fuel token pos s).1 l t i =
        keyAt p s l t i ∧
      valAt p (genLoopAux exq sq p wb w temperature rs fuel token pos s).1 l t i =
        valAt p s l t i) := by
  refine ⟨?_, ?_, ?_, ?_⟩
  · intro token pos s l t i hpos ht hne hi
    exact ⟨transformer_key_frame exq sq p wb w pos token s hdim hpos ht hne hi,
      transformer_value_frame exq sq p wb w pos token s hdim hpos ht hne hi⟩
  · intro token t s l i ht hl hi
    exact ⟨transformer_key_write exq sq p wb w t token s hdim ht hl hi,
      transformer_value_write exq sq p wb w t token s hdim ht hl hi⟩
  · intro fuel token pos s l t i hle ht hi
    exact genLoop_preserves_earlier_slots exq sq p wb w temperature rs hdim
      fuel token pos s hle l t i ht hi
  · intro fuel token pos s l t i hle ht hi
    exact genLoop_preserves_future_slots exq sq p wb w temperature rs hdim
      fuel token pos s l t i hle ht hi

/-- Witness for C6 at `cfgA`: the pass at position 0 leaves slot `(0, 1)`
unchanged and writes slot `(0, 0)` with its layer-0 key vector. -/
theorem cache_slot_written_once_witness :
    (keyAt cfgA (transformer id id 1 0 cfgA zeroBuf wA zeroState) 0 1 0 =
        keyAt cfgA zeroState 0 1 0 ∧
      valAt cfgA (transformer id id 1 0 cfgA zeroBuf wA zeroState) 0 1 0 =
        valAt cfgA zeroState 0 1 0) ∧
    (keyAt cfgA (transformer id id 1 0 cfgA zeroBuf wA zeroState) 0 0 0 =
        (layersUpTo id id cfgA zeroBuf wA 0 1 (embedState 1 cfgA zeroBuf wA zeroState)).k 0 ∧
      valAt cfgA (transformer id id 1 0 cfgA zeroBuf wA zeroState) 0 0 0 =
        (layersUpTo id id cfgA zeroBuf wA 0 1 (embedState 1 cfgA zeroBuf wA zeroState)).v 0) :=
  ⟨(cache_slot_written_once id id cfgA zeroBuf wA 0 zeroBuf (by decide)).1
      1 0 zeroState 0 1 0 (by decide) (by decide) (by decide) (by decide),
   (cache_slot_written_once id id cfgA zeroBuf wA 0 zeroBuf (by decide)).2.1
      1 0 zeroState 0 0 (by decide) (by decide) (by decide)⟩

/-!  ## C9: congruence of one forward pass in everything but the caches  -/

lemma dotRow_congr {x1 x2 : Nat → ℚ} (wf : Nat → ℚ) (n : Nat)
    (h : AgreeLt x1 x2 n) (i : Nat) : dotRow wf x1 n i = dotRow wf x2 n i :=
  Finset.sum_congr rfl (fun j hj => by rw [h j (Finset.mem_range.mp hj)])

lemma matmul_congr {o1 o2 x1 x2 : Nat → ℚ} (wf : Nat → ℚ) (n d : Nat)
    (h : AgreeLt x1 x2 n) :
    AgreeLt (matmul o1 x1 wf n d) (matmul o2 x2 wf n d) d := by
  intro i hi
  simp only [matmul]
  rw [if_pos hi, if_pos hi, dotRow_congr wf n h i]

lemma rmsnorm_congr (sq : ℚ → ℚ) {o1 o2 x1 x2 : Nat → ℚ} (wgt : Nat → ℚ)
    (size : Nat) (h : AgreeLt x1 x2 size) :
    AgreeLt (rmsnorm sq o1 x1 wgt size) (rmsnorm sq o2 x2 wgt size) size := by
  intro j hj
  have hsum : ∑ i in Finset.range size, x1 i * x1 i =
      ∑ i in Finset.range size, x2 i * x2 i :=
    Finset.sum_congr rfl (fun i hi => by rw [h i (Finset.mem_range.mp hi)])
  simp only [rmsnorm]
  rw [if_pos hj, if_pos hj, hsum, h j hj]

lemma accum_congr {a1 a2 b1 b2 : Nat → ℚ} (n : Nat) (ha : AgreeLt a1 a2 n)
    (hb : AgreeLt b1 b2 n) : AgreeLt (accum a1 b1 n) (accum a2 b2 n) n := by
  intro i hi
  simp only [accum]
  rw [if_pos hi, if_pos hi, ha i hi, hb i hi]

lemma silu_congr (exq : ℚ → ℚ) {h1 h2 : Nat → ℚ} (n : Nat)
    (h : AgreeLt h1 h2 n) : AgreeLt (silu exq h1 n) (silu exq h2 n) n := by
  intro i hi
  simp only [silu]
  rw [if_pos hi, if_pos hi, h i hi]

lemma gateMul_congr {a1 a2 b1 b2 : Nat → ℚ} (n : Nat) (ha : AgreeLt a1 a2 n)
    (hb : AgreeLt b1 b2 n) : AgreeLt (gateMul a1 b1 n) (gateMul a2 b2 n) n := by
  intro i hi
  simp only [gateMul]
  rw [if_pos hi, if_pos hi, ha i hi, hb i hi]

lemma writeSlot_congr {c1 c2 src1 src2 : Nat → ℚ} (start dim : Nat)
    (hc : c1 = c2) (hsrc : AgreeLt src1 src2 dim) :
    writeSlot c1 src1 start dim = writeSlot c2 src2 start dim := by
  funext idx
  simp only [writeSlot]
  by_cases hw : start ≤ idx ∧ idx < start + dim
  · rw [if_pos hw, if_pos hw, hsrc (idx - start) (by omega)]
  · rw [if_neg hw, if_neg hw, hc]

lemma foldl_max_congr (x1 x2 : Nat → ℚ) (off : Nat) :
    ∀ (l : List Nat), (∀ i ∈ l, x1 (off + i) = x2 (off + i)) → ∀ (m : ℚ),
      l.foldl (fun m i => if x1 (off + i) > m then x1 (off + i) else m) m =
        l.foldl (fun m i => if x2 (off + i) > m then x2 (off + i) else m) m := by
  intro l
  induction l with
  | nil => intro _ m; rfl
  | cons a tl ih =>
    intro hmem m
    simp only [List.foldl_cons]
    rw [hmem a (List.mem_cons_self a tl)]
    exact ih (fun i hi => hmem i (List.mem_cons_of_mem a hi)) _

lemma maxOver_congr {x1 x2 : Nat → ℚ} (off size : Nat) (hs : 0 < size)
    (h : ∀ j, j < size → x1 (off + j) = x2 (off + j)) :
    maxOver x1 off size = maxOver x2 off size := by
  unfold maxOver
  have h0 : x1 off = x2 off := by
    have := h 0 hs
    simpa using this
  rw [h0]
  refine foldl_max_congr x1 x2 off _ (fun i hi => ?_) _
  have hmem := List.mem_range'_1.mp hi
  exact h i (by omega)

lemma softmax_congr (exq : ℚ → ℚ) {x1 x2 : Nat → ℚ} (off size : Nat)
    (hs : 0 < size) (h : ∀ j, j < size → x1 (off + j) = x2 (off + j)) :
    ∀ idx, off ≤ idx → idx < off + size →
      softmax exq x1 off size idx = softmax exq x2 off size idx := by
  intro idx h1 h2
  have hidx : x1 idx = x2 idx := by
    have := h (idx - off) (by omega)
    rwa [Nat.add_sub_cancel' h1] at this
  have hsum : ∑ i in Finset.range size, exq (x1 (off + i) - maxOver x2 off size) =
      ∑ i in Finset.range size, exq (x2 (off + i) - maxOver x2 off size) :=
    Finset.sum_congr rfl (fun i hi => by rw [h i (Finset.mem_range.mp hi)])
  simp only [softmax]
  rw [if_pos ⟨h1, h2⟩, if_pos ⟨h1, h2⟩, maxOver_congr off size hs h, hidx, hsum]

lemma attScores_congr (sq : ℚ → ℚ) (p : Config) (pos loff h : Nat)
    {s1 s2 : RunState} (hq : AgreeLt s1.q s2.q p.dim)
    (hkc : s1.key_cache = s2.key_cache) (hh : h < p.nHeads)
    (hhs : p.nHeads * (p.dim / p.nHeads) = p.dim) :
    ∀ j, j < pos + 1 →
      attScores sq p pos loff h s1 (h * p.seqLen + j) =
        attScores sq p pos loff h s2 (h * p.seqLen + j) := by
  intro j hj
  have hin : h * p.seqLen ≤ h * p.seqLen + j ∧
      h * p.seqLen + j < h * p.seqLen + (pos + 1) := ⟨Nat.le_add_right _ _, by omega⟩
  simp only [attScores]
  rw [if_pos hin, if_pos hin, hkc]
  congr 1
  refine Finset.sum_congr rfl (fun i hi => ?_)
  have hi' := Finset.mem_range.mp hi
  have hiin : h * (p.dim / p.nHeads) + i < p.dim := by
    have h1 : h * (p.dim / p.nHeads) + i < (h + 1) * (p.dim / p.nHeads) := by
      rw [Nat.succ_mul]; omega
    have h2 : (h + 1) * (p.dim / p.nHeads) ≤ p.nHeads * (p.dim / p.nHeads) :=
      Nat.mul_le_mul_right _ (by omega)
    omega
  rw [hq _ hiin]

lemma attOut_congr (exq sq : ℚ → ℚ) (p : Config) (pos loff h : Nat)
    {s1 s2 : RunState} (hq : AgreeLt s1.q s2.q p.dim)
    (hkc : s1.key_cache = s2.key_cache) (hh : h < p.nHeads)
    (hhs : p.nHeads * (p.dim / p.nHeads) = p.dim) :
    ∀ idx, h * p.seqLen ≤ idx → idx < h * p.seqLen + (pos + 1) →
      attOut exq sq p pos loff h s1 idx = attOut exq sq p pos loff h s2 idx := by
  intro idx h1 h2
  exact softmax_congr exq (h * p.seqLen) (pos + 1) (by omega)
    (attScores_congr sq p pos loff h hq hkc hh hhs) idx h1 h2

lemma attOut_frame (exq sq : ℚ → ℚ) (p : Config) (pos loff h : Nat)
    (s : RunState) (idx : Nat)
    (hout : ¬ (h * p.seqLen ≤ idx ∧ idx < h * p.seqLen + (pos + 1))) :
    attOut exq sq p pos loff h s idx = s.att idx := by
  simp only [attOut, softmax, attScores, if_neg hout]

lemma headStep_att_frame (exq sq : ℚ → ℚ) (p : Config) (pos loff : Nat)
    (s : RunState) (h idx : Nat)
    (hout : ¬ (h * p.seqLen ≤ idx ∧ idx < h * p.seqLen + (pos + 1))) :
    (headStep exq sq p pos loff s h).att idx = s.att idx :=
  attOut_frame exq sq p pos loff h s idx hout

lemma headStep_congr (exq sq : ℚ → ℚ) (p : Config) (pos loff h : Nat)
    {s1 s2 : RunState} (hq : AgreeLt s1.q s2.q p.dim)
    (hkc : s1.key_cache = s2.key_cache) (hvc : s1.value_cache = s2.value_cache)
    (hxb : AgreeLt s1.xb s2.xb p.dim) (hh : h < p.nHeads)
    (hhs : p.nHeads * (p.dim / p.nHeads) = p.dim) :
    AgreeLt (headStep exq sq p pos loff s1 h).xb
      (headStep exq sq p pos loff s2 h).xb p.dim ∧
    ∀ idx, h * p.seqLen ≤ idx → idx < h * p.seqLen + (pos + 1) →
      (headStep exq sq p pos loff s1 h).att idx =
        (headStep exq sq p pos loff s2 h).att idx := by
  constructor
  · intro idx hidx
    by_cases hw : h * (p.dim / p.nHeads) ≤ idx ∧
        idx < h * (p.dim / p.nHeads) + (p.dim / p.nHeads)
    · simp only [headStep]
      rw [if_pos hw, if_pos hw, hvc]
      refine Finset.sum_congr rfl (fun t ht => ?_)
      have ht' := Finset.mem_range.mp ht
      rw [attOut_congr exq sq p pos loff h hq hkc hh hhs (h * p.seqLen + t)
        (Nat.le_add_right _ _) (by omega)]
    · simp only [headStep]
      rw [if_neg hw, if_neg hw]
      exact hxb idx hidx
  · intro idx h1 h2
    exact attOut_congr exq sq p pos loff h hq hkc hh hhs idx h1 h2

lemma headsUpTo_succ (exq sq : ℚ → ℚ) (p : Config) (pos loff : Nat) (m : Nat)
    (s : RunState) :
    headsUpTo exq sq p pos loff (m + 1) s =
      headStep exq sq p pos loff (headsUpTo exq sq p pos loff m s) m := by
  unfold headsUpTo
  rw [List.range_succ, List.foldl_append, List.foldl_cons, List.foldl_nil]

lemma headsUpTo_q (exq sq : ℚ → ℚ) (p : Config) (pos loff : Nat) :
    ∀ (m : Nat) (s : RunState), (headsUpTo exq sq p pos loff m s).q = s.q := by
  intro m
  induction m with
  | zero => intro s; rfl
  | succ m ih =>
    intro s
    rw [headsUpTo_succ]
    exact ih s

lemma headsUpTo_key_cache (exq sq : ℚ → ℚ) (p : Config) (pos loff : Nat) :
    ∀ (m : Nat) (s : RunState),
      (headsUpTo exq sq p pos loff m s).key_cache = s.key_cache := by
  intro m
  induction m with
  | zero => intro s; rfl
  | succ m ih =>
    intro s
    rw [headsUpTo_succ]
    exact ih s

lemma headsUpTo_value_cache (exq sq : ℚ → ℚ) (p : Config) (pos loff : Nat) :
    ∀ (m : Nat) (s : RunState),
      (headsUpTo exq sq p pos loff m s).value_cache = s.value_cache := by
  intro m
  induction m with
  | zero => intro s; rfl
  | succ m ih =>
    intro s
    rw [headsUpTo_succ]
    exact ih s

lemma headsUpTo_att_frame (exq sq : ℚ → ℚ) (p : Config) (pos loff : Nat) :
    ∀ (m : Nat) (s : RunState) (idx : Nat),
      (∀ h, h < m → ¬ (h * p.seqLen ≤ idx ∧ idx < h * p.seqLen + (pos + 1))) →
      (headsUpTo exq sq p pos loff m s).att idx = s.att idx := by
  intro m
  induction m with
  | zero => intro s idx _; rfl
  | succ m ih =>
    intro s idx hout
    rw [headsUpTo_succ,
      headStep_att_frame exq sq p pos loff _ m idx (hout m (by omega))]
    exact ih s idx (fun h hh => hout h (by omega))

lemma headsUpTo_congr (exq sq : ℚ → ℚ) (p : Config) (pos loff : Nat)
    (hhs : p.nHeads * (p.dim / p.nHeads) = p.dim) (hpos : pos < p.seqLen) :
    ∀ (m : Nat), m ≤ p.nHeads → ∀ {s1 s2 : RunState},
      AgreeLt s1.q s2.q p.dim → s1.key_cache = s2.key_cache →
      s1.value_cache = s2.value_cache → AgreeLt s1.xb s2.xb p.dim →
      AgreeLt (headsUpTo exq sq p pos loff m s1).xb
        (headsUpTo exq sq p pos loff m s2).xb p.dim ∧
      ∀ h j, h < m → j ≤ pos →
        (headsUpTo exq sq p pos loff m s1).att (h * p.seqLen + j) =
          (headsUpTo exq sq p pos loff m s2).att (h * p.seqLen + j) := by
  intro m
  induction m with
  | zero =>
    intro _ s1 s2 _ _ _ hxb
    exact ⟨hxb, fun h j hh _ => absurd hh (by omega)⟩
  | succ m ih =>
    intro hm s1 s2 hq hkc hvc hxb
    have hprev := ih (by omega) hq hkc hvc hxb
    have hq2 : AgreeLt (headsUpTo exq sq p pos loff m s1).q
        (headsUpTo exq sq p pos loff m s2).q p.dim := by
      rw [headsUpTo_q, headsUpTo_q]
      exact hq
    have hkc2 : (headsUpTo exq sq p pos loff m s1).key_cache =
        (headsUpTo exq sq p pos loff m s2).key_cache := by
      rw [headsUpTo_key_cache, headsUpTo_key_cache]
      exact hkc
    have hvc2 : (headsUpTo exq sq p pos loff m s1).value_cache =
        (headsUpTo exq sq p pos loff m s2).value_cache := by
      rw [headsUpTo_value_cache, headsUpTo_value_cache]
      exact hvc
    have hstep := headStep_congr exq sq p pos loff m hq2 hkc2 hvc2 hprev.1
      (by omega) hhs
    constructor
    · rw [headsUpTo_succ, headsUpTo_succ]
      exact hstep.1
    · intro h j hh hj
      rw [headsUpTo_succ, headsUpTo_succ]
      by_cases hcase : h = m
      · subst hcase
        exact hstep.2 (h * p.seqLen + j) (Nat.le_add_right _ _) (by omega)
      · have hidx : h * p.seqLen + j < m * p.seqLen := by
          have h1 : h * p.seqLen + j < (h + 1) * p.seqLen := by
            rw [Nat.succ_mul]; omega
          have h2 : (h + 1) * p.seqLen ≤ m * p.seqLen :=
            Nat.mul_le_mul_right _ (by omega)
          omega
        have hout : ¬ (m * p.seqLen ≤ h * p.seqLen + j ∧
            h * p.seqLen + j < m * p.seqLen + (pos + 1)) := by omega
        rw [headStep_att_frame exq sq p pos loff _ m _ hout,
          headStep_att_frame exq sq p pos loff _ m _ hout]
        exact hprev.2 h j (by omega) hj

lemma rope_congr {q1 q2 : Nat → ℚ} (fr fi : Nat → ℚ) (nH hs dim : Nat)
    (hhs : nH * hs = dim) (heven : hs % 2 = 0) (h : AgreeLt q1 q2 dim) :
    AgreeLt (rope q1 fr fi nH hs) (rope q2 fr fi nH hs) dim := by
  intro idx hidx
  have hlt : idx < nH * hs := by omega
  have hhs0 : 0 < hs := by
    rcases Nat.eq_zero_or_pos hs with h0 | h0
    · rw [h0, Nat.mul_zero] at hhs
      omega
    · exact h0
  simp only [rope]
  rw [if_pos hlt, if_pos hlt]
  by_cases hpar : idx % hs % 2 = 0
  · rw [if_pos hpar, if_pos hpar]
    have hmod : idx % hs < hs := Nat.mod_lt _ hhs0
    have hdivlt : idx / hs < nH := by
      rw [Nat.div_lt_iff_lt_mul hhs0]
      omega
    have hdm : hs * (idx / hs) + idx % hs = idx := Nat.div_add_mod idx hs
    have hnext : idx + 1 < dim := by
      have hstep : idx % hs + 1 < hs := by omega
      have hc : idx + 1 < hs * (idx / hs + 1) := by
        rw [Nat.mul_succ]
        omega
      have hd : hs * (idx / hs + 1) ≤ hs * nH := Nat.mul_le_mul_left _ (by omega)
      have he : hs * nH = dim := by rw [Nat.mul_comm]; exact hhs
      omega
    rw [h idx hidx, h (idx + 1) hnext]
  · rw [if_neg hpar, if_neg hpar]
    have hprev : idx - 1 < dim := by omega
    rw [h idx hidx, h (idx - 1) hprev]

lemma layerMid_congr (sq : ℚ → ℚ) (p : Config) (wb : Nat → ℚ) (w : Weights)
    (pos l : Nat) {s1 s2 : RunState}
    (hhs : p.nHeads * (p.dim / p.nHeads) = p.dim)
    (heven : (p.dim / p.nHeads) % 2 = 0)
    (hx : AgreeLt s1.x s2.x p.dim) (hkc : s1.key_cache = s2.key_cache)
    (hvc : s1.value_cache = s2.value_cache) :
    AgreeLt (layerMid sq p wb w pos l s1).xb (layerMid sq p wb w pos l s2).xb p.dim ∧
    AgreeLt (layerMid sq p wb w pos l s1).q (layerMid sq p wb w pos l s2).q p.dim ∧
    AgreeLt (layerMid sq p wb w pos l s1).k (layerMid sq p wb w pos l s2).k p.dim ∧
    AgreeLt (layerMid sq p wb w pos l s1).v (layerMid sq p wb w pos l s2).v p.dim ∧
    (layerMid sq p wb w pos l s1).key_cache = (layerMid sq p wb w pos l s2).key_cache ∧
    (layerMid sq p wb w pos l s1).value_cache = (layerMid sq p wb w pos l s2).value_cache := by
  have hxb1 := @rmsnorm_congr sq s1.xb s2.xb s1.x s2.x
    (view wb (w.rms_att_weight + l * p.dim)) p.dim hx
  have hq1 := @matmul_congr s1.q s2.q _ _ (view wb (w.wq + l * p.dim * p.dim))
    p.dim p.dim hxb1
  have hk1 := @matmul_congr s1.k s2.k _ _ (view wb (w.wk + l * p.dim * p.dim))
    p.dim p.dim hxb1
  have hv1 := @matmul_congr s1.v s2.v _ _ (view wb (w.wv + l * p.dim * p.dim))
    p.dim p.dim hxb1
  have hq2 := rope_congr (view wb (w.freq_cis_real + pos * (p.dim / p.nHeads) / 2))
    (view wb (w.freq_cis_imag + pos * (p.dim / p.nHeads) / 2)) p.nHeads
    (p.dim / p.nHeads) p.dim hhs heven hq1
  have hk2 := rope_congr (view wb (w.freq_cis_real + pos * (p.dim / p.nHeads) / 2))
    (view wb (w.freq_cis_imag + pos * (p.dim / p.nHeads) / 2)) p.nHeads
    (p.dim / p.nHeads) p.dim hhs heven hk1
  exact ⟨hxb1, hq2, hk2, hv1,
    writeSlot_congr (l * p.seqLen * p.dim + pos * p.dim) p.dim hkc hk2,
    writeSlot_congr (l * p.seqLen * p.dim + pos * p.dim) p.dim hvc hv1⟩

lemma layerStep_congr (exq sq : ℚ → ℚ) (p : Config) (wb : Nat → ℚ) (w : Weights)
    (pos l : Nat) {s1 s2 : RunState}
    (hhs : p.nHeads * (p.dim / p.nHeads) = p.dim)
    (heven : (p.dim / p.nHeads) % 2 = 0) (hpos : pos < p.seqLen)
    (hx : AgreeLt s1.x s2.x p.dim) (hkc : s1.key_cache = s2.key_cache)
    (hvc : s1.value_cache = s2.value_cache) :
    AgreeLt (layerStep exq sq p wb w pos s1 l).x
      (layerStep exq sq p wb w pos s2 l).x p.dim ∧
    (layerStep exq sq p wb w pos s1 l).key_cache =
      (layerStep exq sq p wb w pos s2 l).key_cache ∧
    (layerStep exq sq p wb w pos s1 l).value_cache =
      (layerStep exq sq p wb w pos s2 l).value_cache ∧
    AgreeLt (layerStep exq sq p wb w pos s1 l).xb
      (layerStep exq sq p wb w pos s2 l).xb p.dim ∧
    AgreeLt (layerStep exq sq p wb w pos s1 l).xb2
      (layerStep exq sq p wb w pos s2 l).xb2 p.dim ∧
    AgreeLt (layerStep exq sq p wb w pos s1 l).hb
      (layerStep exq sq p wb w pos s2 l).hb p.hiddenDim ∧
    AgreeLt (layerStep exq sq p wb w pos s1 l).hb2
      (layerStep exq sq p wb w pos s2 l).hb2 p.hiddenDim ∧
    AgreeLt (layerStep exq sq p wb w pos s1 l).q
      (layerStep exq sq p wb w pos s2 l).q p.dim ∧
    AgreeLt (layerStep exq sq p wb w pos s1 l).k
      (layerStep exq sq p wb w pos s2 l).k p.dim ∧
    AgreeLt (layerStep exq sq p wb w pos s1 l).v
      (layerStep exq sq p wb w pos s2 l).v p.dim ∧
    (∀ h j, h < p.nHeads → j ≤ pos →
      (layerStep exq sq p wb w pos s1 l).att (h * p.seqLen + j) =
        (layerStep exq sq p wb w pos s2 l).att (h * p.seqLen + j)) := by
  obtain ⟨hmxb, hmq, hmk, hmv, hmkc, hmvc⟩ :=
    layerMid_congr sq p wb w pos l hhs heven hx hkc hvc
  obtain ⟨haxb, hatt⟩ := headsUpTo_congr exq sq p pos (l * p.seqLen * p.dim) hhs
    hpos p.nHeads (le_refl _) hmq hmkc hmvc hmxb
  have hxb2 : AgreeLt (layerStep exq sq p wb w pos s1 l).xb2
      (layerStep exq sq p wb w pos s2 l).xb2 p.dim :=
    matmul_congr _ p.dim p.dim haxb
  have hx1 := accum_congr p.dim hx hxb2
  have hxb3 : ∀ (o1 o2 : Nat → ℚ),
      AgreeLt
        (rmsnorm sq o1 (accum s1.x ((layerStep exq sq p wb w pos s1 l).xb2) p.dim)
          (view wb (w.rms_ffn_weight + l * p.dim)) p.dim)
        (rmsnorm sq o2 (accum s2.x ((layerStep exq sq p wb w pos s2 l).xb2) p.dim)
          (view wb (w.rms_ffn_weight + l * p.dim)) p.dim) p.dim :=
    fun o1 o2 => rmsnorm_congr sq (view wb (w.rms_ffn_weight + l * p.dim)) p.dim hx1
  have hhb : AgreeLt (layerStep exq sq p wb w pos s1 l).hb
      (layerStep exq sq p wb w pos s2 l).hb p.hiddenDim :=
    gateMul_congr p.hiddenDim
      (silu_congr exq p.hiddenDim (matmul_congr _ p.dim p.hiddenDim (hxb3 _ _)))
      (matmul_congr _ p.dim p.hiddenDim (hxb3 _ _))
  have hhb2 : AgreeLt (layerStep exq sq p wb w pos s1 l).hb2
      (layerStep exq sq p wb w pos s2 l).hb2 p.hiddenDim :=
    matmul_congr _ p.dim p.hiddenDim (hxb3 _ _)
  have hxbC : AgreeLt (layerStep exq sq p wb w pos s1 l).xb
      (layerStep exq sq p wb w pos s2 l).xb p.dim :=
    matmul_congr _ p.hiddenDim p.dim hhb
  have hxC : AgreeLt (layerStep exq sq p wb w pos s1 l).x
      (layerStep exq sq p wb w pos s2 l).x p.dim :=
    accum_congr p.dim hx1 hxbC
  exact ⟨hxC, hmkc, hmvc, hxbC, hxb2, hhb, hhb2, hmq, hmk, hmv, hatt⟩

lemma layersUpTo_congr (exq sq : ℚ → ℚ) (p : Config) (wb : Nat → ℚ)
    (w : Weights) (pos : Nat) (hhs : p.nHeads * (p.dim / p.nHeads) = p.dim)
    (heven : (p.dim / p.nHeads) % 2 = 0) (hpos : pos < p.seqLen) :
    ∀ (m : Nat) {s1 s2 : RunState}, AgreeLt s1.x s2.x p.dim →
      s1.key_cache = s2.key_cache → s1.value_cache = s2.value_cache →
      AgreeLt (layersUpTo exq sq p wb w pos m s1).x
        (layersUpTo exq sq p wb w pos m s2).x p.dim ∧
      (layersUpTo exq sq p wb w pos m s1).key_cache =
        (layersUpTo exq sq p wb w pos m s2).key_cache ∧
      (layersUpTo exq sq p wb w pos m s1).value_cache =
        (layersUpTo exq sq p wb w pos m s2).value_cache := by
  intro m
  induction m with
  | zero => intro s1 s2 hx hkc hvc; exact ⟨hx, hkc, hvc⟩
  | succ m ih =>
    intro s1 s2 hx hkc hvc
    have hprev := ih hx hkc hvc
    have hstep := layerStep_congr exq sq p wb w pos m hhs heven hpos hprev.1
      hprev.2.1 hprev.2.2
    rw [layersUpTo_succ, layersUpTo_succ]
    exact ⟨hstep.1, hstep.2.1, hstep.2.2.1⟩

lemma layerStep_att_frame (exq sq : ℚ → ℚ) (p : Config) (wb : Nat → ℚ)
    (w : Weights) (pos : Nat) (s : RunState) (l idx : Nat)
    (hout : ∀ h, h < p.nHeads →
      ¬ (h * p.seqLen ≤ idx ∧ idx < h * p.seqLen + (pos + 1))) :
    (layerStep exq sq p wb w pos s l).att idx = s.att idx :=
  headsUpTo_att_frame exq sq p pos (l * p.seqLen * p.dim) p.nHeads
    (layerMid sq p wb w pos l s) idx hout

lemma layersUpTo_att_frame (exq sq : ℚ → ℚ) (p : Config) (wb : Nat → ℚ)
    (w : Weights) (pos : Nat) :
    ∀ (m : Nat) (s : RunState) (idx : Nat),
      (∀ h, h < p.nHeads →
        ¬ (h * p.seqLen ≤ idx ∧ idx < h * p.seqLen + (pos + 1))) →
      (layersUpTo exq sq p wb w pos m s).att idx = s.att idx := by
  intro m
  induction m with
  | zero => intro s idx _; rfl
  | succ m ih =>
    intro s idx hout
    rw [layersUpTo_succ, layerStep_att_frame exq sq p wb w pos _ m idx hout]
    exact ih s idx hout

lemma transformer_att_frame (exq sq : ℚ → ℚ) (token pos : Nat) (p : Config)
    (wb : Nat → ℚ) (w : Weights) (s : RunState) (idx : Nat)
    (hout : ∀ h, h < p.nHeads →
      ¬ (h * p.seqLen ≤ idx ∧ idx < h * p.seqLen + (pos + 1))) :
    (transformer exq sq token pos p wb w s).att idx = s.att idx :=
  layersUpTo_att_frame exq sq p wb w pos p.nLayers (embedState token p wb w s)
    idx hout

/-- C9 counterexample: the spec says every non-cache buffer is fully
overwritten by each forward pass, but the `att` buffer is only written on the
per-head prefix `[0, pos]`: at position 0 with `seq_len` 2, two states with
identical caches but different stale values at `att` index 1 still differ
there after the pass, which also means the buffer carried its old content
across the step. -/
theorem att_not_fully_overwritten_counterexample :
    attState.key_cache = zeroState.key_cache ∧
    attState.value_cache = zeroState.value_cache ∧
    (transformer id id 0 0 cfgA zeroBuf wA zeroState).att 1 = 0 ∧
    (transformer id id 0 0 cfgA zeroBuf wA attState).att 1 = 1 := by
  refine ⟨rfl, rfl, ?_, ?_⟩
  · rw [transformer_att_frame id id 0 0 cfgA zeroBuf wA zeroState 1 (by decide)]
    rfl
  · rw [transformer_att_frame id id 0 0 cfgA zeroBuf wA attState 1 (by decide)]
    rfl

/-- C9 amended: the key/value cache is the only activation buffer whose prior
content can flow into a forward pass: two states agreeing on the caches
produce identical caches, identical `x`, `xb`, `xb2`, `hb`, `hb2`, `q`, `k`,
`v` on their used extents, identical `logits` on `[0, vocab_size)`, and
identical `att` on the per-head prefixes `[h*seq_len, h*seq_len + pos]` that
the pass writes and reads; `att` entries outside those prefixes are not
overwritten (they keep the incoming state's stale values, which no step
reads). -/
theorem cache_only_cross_step_state (exq sq : ℚ → ℚ) (token pos : Nat)
    (p : Config) (wb : Nat → ℚ) (w : Weights) (s1 s2 : RunState)
    (hL : 0 < p.nLayers) (hhs : p.nHeads * (p.dim / p.nHeads) = p.dim)
    (heven : (p.dim / p.nHeads) % 2 = 0) (hpos : pos < p.seqLen)
    (hkc : s1.key_cache = s2.key_cache) (hvc : s1.value_cache = s2.value_cache) :
    (AgreeLt (transformer exq sq token pos p wb w s1).x
        (transformer exq sq token pos p wb w s2).x p.dim ∧
      (transformer exq sq token pos p wb w s1).key_cache =
        (transformer exq sq token pos p wb w s2).key_cache ∧
      (transformer exq sq token pos p wb w s1).value_cache =
        (transformer exq sq token pos p wb w s2).value_cache ∧
      AgreeLt (transformer exq sq token pos p wb w s1).xb
        (transformer exq sq token pos p wb w s2).xb p.dim ∧
      AgreeLt (transformer exq sq token pos p wb w s1).xb2
        (transformer exq sq token pos p wb w s2).xb2 p.dim ∧
      AgreeLt (transformer exq sq token pos p wb w s1).hb
        (transformer exq sq token pos p wb w s2).hb p.hiddenDim ∧
      AgreeLt (transformer exq sq token pos p wb w s1).hb2
        (transformer exq sq token pos p wb w s2).hb2 p.hiddenDim ∧
      AgreeLt (transformer exq sq token pos p wb w s1).q
        (transformer exq sq token pos p wb w s2).q p.dim ∧
      AgreeLt (transformer exq sq token pos p wb w s1).k
        (transformer exq sq token pos p wb w s2).k p.dim ∧
      AgreeLt (transformer exq sq token pos p wb w s1).v
        (transformer exq sq token pos p wb w s2).v p.dim ∧
      AgreeLt (transformer exq sq token pos p wb w s1).logits
        (transformer exq sq token pos p wb w s2).logits p.vocabSize ∧
      (∀ h j, h < p.nHeads → j ≤ pos →
        (transformer exq sq token pos p wb w s1).att (h * p.seqLen + j) =
          (transformer exq sq token pos p wb w s2).att (h * p.seqLen + j))) ∧
    (∀ idx, (∀ h, h < p.nHeads →
        ¬ (h * p.seqLen ≤ idx ∧ idx < h * p.seqLen + (pos + 1))) →
      (transformer exq sq token pos p wb w s1).att idx = s1.att idx) := by
  have hx0 : AgreeLt (embedState token p wb w s1).x
      (embedState token p wb w s2).x p.dim := by
    intro i hi
    simp only [embedState]
    rw [if_pos hi, if_pos hi]
  have hkc0 : (embedState token p wb w s1).key_cache =
      (embedState token p wb w s2).key_cache := hkc
  have hvc0 : (embedState token p wb w s1).value_cache =
      (embedState token p wb w s2).value_cache := hvc
  obtain ⟨n, hn⟩ : ∃ n, p.nLayers = n + 1 := ⟨p.nLayers - 1, by omega⟩
  have hprev := layersUpTo_congr exq sq p wb w pos hhs heven hpos n hx0 hkc0 hvc0
  have hstep := layerStep_congr exq sq p wb w pos n hhs heven hpos hprev.1
    hprev.2.1 hprev.2.2
  rw [← layersUpTo_succ, ← layersUpTo_succ, ← hn] at hstep
  have hxfinal : AgreeLt
      (rmsnorm sq (layersUpTo exq sq p wb w pos p.nLayers (embedState token p wb w s1)).x
        (layersUpTo exq sq p wb w pos p.nLayers (embedState token p wb w s1)).x
        (view wb w.rms_final_weight) p.dim)
      (rmsnorm sq (layersUpTo exq sq p wb w pos p.nLayers (embedState token p wb w s2)).x
        (layersUpTo exq sq p wb w pos p.nLayers (embedState token p wb w s2)).x
        (view wb w.rms_final_weight) p.dim) p.dim :=
    rmsnorm_congr sq (view wb w.rms_final_weight) p.dim hstep.1
  refine ⟨⟨hxfinal, hstep.2.1, hstep.2.2.1, hstep.2.2.2.1, hstep.2.2.2.2.1,
    hstep.2.2.2.2.2.1, hstep.2.2.2.2.2.2.1, hstep.2.2.2.2.2.2.2.1,
    hstep.2.2.2.2.2.2.2.2.1, hstep.2.2.2.2.2.2.2.2.2.1,
    matmul_congr _ p.dim p.vocabSize hxfinal,
    hstep.2.2.2.2.2.2.2.2.2.2⟩, ?_⟩
  intro idx hout
  exact transformer_att_frame exq sq token pos p wb w s1 idx hout

/-- Witness for C9 amended at `cfgA`, position 0, with `zeroState` against
the state whose stale `att` entry differs. -/
theorem cache_only_cross_step_state_witness :
    (AgreeLt (transformer id id 0 0 cfgA zeroBuf wA zeroState).x
        (transformer id id 0 0 cfgA zeroBuf wA attState).x cfgA.dim ∧
      (transformer id id 0 0 cfgA zeroBuf wA zeroState).key_cache =
        (transformer id id 0 0 cfgA zeroBuf wA attState).key_cache ∧
      (transformer id id 0 0 cfgA zeroBuf wA zeroState).value_cache =
        (transformer id id 0 0 cfgA zeroBuf wA attState).value_cache ∧
      AgreeLt (transformer id id 0 0 cfgA zeroBuf wA zeroState).xb
        (transformer id id 0 0 cfgA zeroBuf wA attState).xb cfgA.dim ∧
      AgreeLt (transformer id id 0 0 cfgA zeroBuf wA zeroState).xb2
        (transformer id id 0 0 cfgA zeroBuf wA attState).xb2 cfgA.dim ∧
      AgreeLt (transformer id id 0 0 cfgA zeroBuf wA zeroState).hb
        (transformer id id 0 0 cfgA zeroBuf wA attState).hb cfgA.hiddenDim ∧
      AgreeLt (transformer id id 0 0 cfgA zeroBuf wA zeroState).hb2
        (transformer id id 0 0 cfgA zeroBuf wA attState).hb2 cfgA.hiddenDim ∧
      AgreeLt (transformer id id 0 0 cfgA zeroBuf wA zeroState).q
        (transformer id id 0 0 cfgA zeroBuf wA attState).q cfgA.dim ∧
      AgreeLt (transformer id id 0 0 cfgA zeroBuf wA zeroState).k
        (transformer id id 0 0 cfgA zeroBuf wA attState).k cfgA.dim ∧
      AgreeLt (transformer id id 0 0 cfgA zeroBuf wA zeroState).v
        (transformer id id 0 0 cfgA zeroBuf wA attState).v cfgA.dim ∧
      AgreeLt (transformer id id 0 0 cfgA zeroBuf wA zeroState).logits
        (transformer id id 0 0 cfgA zeroBuf wA attState).logits cfgA.vocabSize ∧
      (∀ h j, h < cfgA.nHeads → j ≤ 0 →
        (transformer id id 0 0 cfgA zeroBuf wA zeroState).att (h * cfgA.seqLen + j) =
          (transformer id id 0 0 cfgA zeroBuf wA attState).att (h * cfgA.seqLen + j))) ∧
    (∀ idx, (∀ h, h < cfgA.nHeads →
        ¬ (h * cfgA.seqLen ≤ idx ∧ idx < h * cfgA.seqLen + (0 + 1))) →
      (transformer id id 0 0 cfgA zeroBuf wA zeroState).att idx = zeroState.att idx) :=
  cache_only_cross_step_state id id 0 0 cfgA zeroBuf wA zeroState attState
    (by decide) (by decide) (by decide) (by decide) rfl rfl

end Llama2
